
import Mathlib

set_option linter.unusedVariables false
set_option linter.unnecessarySeqFocus false

namespace Parsec

/-- Modelled from the spec: the file bool_set.rs is absent from the sources. The spec
describes `estimates ⊆ {true,false}` and `bin_values ⊆ {true,false}`; the Debug impl in
meta_vote.rs shows the three constructors Empty, Single and Both. -/

inductive BoolSet where
  | Empty : BoolSet
  | Single : Bool → BoolSet
  | Both : BoolSet
deriving DecidableEq

/-- Modelled from the spec: BoolSet singleton construction used by meta_vote.rs. -/

def BoolSet.from_bool (b : Bool) : BoolSet := BoolSet.Single b

/-- Modelled from the spec: emptiness test of the boolean set. -/

def BoolSet.is_empty : BoolSet → Bool
  | BoolSet.Empty => true
  | _ => false

/-- Modelled from the spec: membership test of the boolean set. -/

def BoolSet.contains : BoolSet → Bool → Bool
  | BoolSet.Empty, _ => false
  | BoolSet.Single s, b => s == b
  | BoolSet.Both, _ => true

/-- Modelled from the spec: insertion into the boolean set; returns the new set together
with the flag telling whether the value was newly inserted (mirroring the Rust insert
used in meta_vote.rs, whose result controls the count increments). -/

def BoolSet.insert : BoolSet → Bool → BoolSet × Bool
  | BoolSet.Empty, b => (BoolSet.Single b, true)
  | BoolSet.Single s, b => if s == b then (BoolSet.Single s, false) else (BoolSet.Both, true)
  | BoolSet.Both, _ => (BoolSet.Both, false)

/-- Modelled from the spec: number of elements of the boolean set. -/

def BoolSet.len : BoolSet → Nat
  | BoolSet.Empty => 0
  | BoolSet.Single _ => 1
  | BoolSet.Both => 2

/-- The three steps of a meta-voting round, from meta_vote.rs. -/

inductive Step where
  | ForcedTrue : Step
  | ForcedFalse : Step
  | GenuineFlip : Step
deriving DecidableEq

/-- The state of a binary meta vote, from meta_vote.rs. -/

structure MetaVote where
  round : Nat
  step : Step
  estimates : BoolSet
  bin_values : BoolSet
  aux_value : Option Bool
  decision : Option Bool
deriving DecidableEq

/-- The Default instance of MetaVote from meta_vote.rs: round 0, step ForcedTrue (the Step
default), empty sets, no aux value and no decision. -/

def MetaVote.initial : MetaVote :=
  ⟨0, Step.ForcedTrue, BoolSet.Empty, BoolSet.Empty, none, none⟩

/-- Modelled from the spec: the file meta_vote_counts.rs is absent from the sources. The
fields are those read and written by meta_vote.rs: tallies of others holding each value in
estimates, bin_values and aux_value, a decision inherited from others, and the total
number of peers. -/

structure MetaVoteCounts where
  estimates_true : Nat
  estimates_false : Nat
  bin_values_true : Nat
  bin_values_false : Nat
  aux_values_true : Nat
  aux_values_false : Nat
  decision : Option Bool
  total_peers : Nat
deriving DecidableEq

/-- Modelled from the spec: add one other voter's meta-vote to the tallies; the inherited
decision is the first one seen. -/

def MetaVoteCounts.tally (c : MetaVoteCounts) (v : MetaVote) : MetaVoteCounts :=
  { c with
    estimates_true := c.estimates_true + (if v.estimates.contains true then 1 else 0)
    estimates_false := c.estimates_false + (if v.estimates.contains false then 1 else 0)
    bin_values_true := c.bin_values_true + (if v.bin_values.contains true then 1 else 0)
    bin_values_false := c.bin_values_false + (if v.bin_values.contains false then 1 else 0)
    aux_values_true := c.aux_values_true + (if v.aux_value = some true then 1 else 0)
    aux_values_false := c.aux_values_false + (if v.aux_value = some false then 1 else 0)
    decision := if c.decision.isSome then c.decision else v.decision }

/-- Modelled from the spec: the counts collect, from each other voter's vector, the first
meta-vote whose round and step match the parent's (the spec's "others hold that value in
their estimates" for the step being updated). -/

def MetaVoteCounts.new (parent : MetaVote) (others : List (List MetaVote))
    (total_peers : Nat) : MetaVoteCounts :=
  others.foldl
    (fun c l =>
      match l.find? (fun v => decide (v.round = parent.round) && decide (v.step = parent.step)) with
      | some v => MetaVoteCounts.tally c v
      | none => c)
    ⟨0, 0, 0, 0, 0, 0, none, total_peers⟩

/-- Modelled from the spec glossary: a supermajority is strictly more than two-thirds of
the voter set. -/

def MetaVoteCounts.is_supermajority (c : MetaVoteCounts) (n : Nat) : Bool :=
  decide (2 * c.total_peers < 3 * n)

/-- Modelled from the spec: at least one-third of the voter set. -/

def MetaVoteCounts.at_least_one_third (c : MetaVoteCounts) (n : Nat) : Bool :=
  decide (c.total_peers ≤ 3 * n)

/-- Modelled from the spec: how many of the others have their aux_value set. -/

def MetaVoteCounts.aux_values_set (c : MetaVoteCounts) : Nat :=
  c.aux_values_true + c.aux_values_false

/-- MetaVote::calculate_new_estimates from meta_vote.rs: an empty estimates set is seeded
from the coin toss when one is available; a non-empty set receives each value held by at
least one-third, the corresponding tally being bumped when the insertion is new. -/

def MetaVote.calculate_new_estimates (mv : MetaVote) (c : MetaVoteCounts)
    (coin_toss : Option Bool) : MetaVote × MetaVoteCounts :=
  if mv.estimates.is_empty then
    match coin_toss with
    | some toss =>
      ({ mv with estimates := BoolSet.from_bool toss },
       if toss then { c with estimates_true := c.estimates_true + 1 }
       else { c with estimates_false := c.estimates_false + 1 })
    | none => (mv, c)
  else
    let step1 :=
      if c.at_least_one_third c.estimates_true then
        let ins := mv.estimates.insert true
        ({ mv with estimates := ins.1 },
         if ins.2 then { c with estimates_true := c.estimates_true + 1 } else c)
      else (mv, c)
    let mv1 := step1.1
    let c1 := step1.2
    if c1.at_least_one_third c1.estimates_false then
      let ins := mv1.estimates.insert false
      ({ mv1 with estimates := ins.1 },
       if ins.2 then { c1 with estimates_false := c1.estimates_false + 1 } else c1)
    else (mv1, c1)

/-- MetaVote::calculate_new_bin_values from meta_vote.rs. -/

def MetaVote.calculate_new_bin_values (mv : MetaVote) (c : MetaVoteCounts) :
    MetaVote × MetaVoteCounts :=
  let step1 :=
    if c.is_supermajority c.estimates_true then
      let ins := mv.bin_values.insert true
      ({ mv with bin_values := ins.1 },
       if ins.2 then { c with bin_values_true := c.bin_values_true + 1 } else c)
    else (mv, c)
  let mv1 := step1.1
  let c1 := step1.2
  if c1.is_supermajority c1.estimates_false then
    let ins := mv1.bin_values.insert false
    ({ mv1 with bin_values := ins.1 },
     if ins.2 then { c1 with bin_values_false := c1.bin_values_false + 1 } else c1)
  else (mv1, c1)

/-- MetaVote::calculate_new_auxiliary_value from meta_vote.rs. -/

def MetaVote.calculate_new_auxiliary_value (mv : MetaVote) (c : MetaVoteCounts)
    (bin_values_was_empty : Bool) : MetaVote × MetaVoteCounts :=
  if mv.aux_value.isSome then (mv, c)
  else if bin_values_was_empty then
    if mv.bin_values.len = 1 then
      if mv.bin_values.contains true then
        ({ mv with aux_value := some true },
         { c with aux_values_true := c.aux_values_true + 1 })
      else
        ({ mv with aux_value := some false },
         { c with aux_values_false := c.aux_values_false + 1 })
    else if mv.bin_values.len = 2 then
      ({ mv with aux_value := some true },
       { c with aux_values_true := c.aux_values_true + 1 })
    else (mv, c)
  else (mv, c)

/-- MetaVote::calculate_new_decision from meta_vote.rs: each forced step may decide its
value; otherwise any decision carried by the counts is inherited; reaching a decision
collapses estimates, bin_values and aux_value to the decided value. -/

def MetaVote.calculate_new_decision (mv : MetaVote) (c : MetaVoteCounts) : MetaVote :=
  let opt_decision : Option Bool :=
    match mv.step with
    | Step.ForcedTrue =>
      if mv.bin_values.contains true && c.is_supermajority c.aux_values_true then some true
      else c.decision
    | Step.ForcedFalse =>
      if mv.bin_values.contains false && c.is_supermajority c.aux_values_false then some false
      else c.decision
    | Step.GenuineFlip => c.decision
  match opt_decision with
  | some d =>
    { mv with estimates := BoolSet.from_bool d, bin_values := BoolSet.from_bool d,
              aux_value := some d, decision := some d }
  | none => mv

/-- MetaVote::update_meta_vote from meta_vote.rs. -/

def MetaVote.update_meta_vote (mv : MetaVote) (c : MetaVoteCounts)
    (coin_tosses : Nat → Option Bool) : MetaVote :=
  if mv.decision.isSome then mv
  else
    let coin_toss := coin_tosses mv.round
    let r1 := MetaVote.calculate_new_estimates mv c coin_toss
    let bin_values_was_empty := r1.1.bin_values.is_empty
    let r2 := MetaVote.calculate_new_bin_values r1.1 r1.2
    let r3 := MetaVote.calculate_new_auxiliary_value r2.1 r2.2 bin_values_was_empty
    MetaVote.calculate_new_decision r3.1 r3.2

/-- MetaVote::increase_step from meta_vote.rs: clear bin_values and aux_value, set the
estimates according to the concrete coin toss rules, and advance the step (advancing the
round when leaving GenuineFlip). -/

def MetaVote.increase_step (mv0 : MetaVote) (c : MetaVoteCounts)
    (coin_toss : Option Bool) : MetaVote :=
  let mv := { mv0 with bin_values := BoolSet.Empty, aux_value := none }
  match mv.step with
  | Step.ForcedTrue =>
    let mv1 :=
      if c.is_supermajority c.aux_values_false then
        { mv with estimates := BoolSet.from_bool false }
      else if !c.is_supermajority c.aux_values_true then
        { mv with estimates := BoolSet.from_bool true }
      else mv
    { mv1 with step := Step.ForcedFalse }
  | Step.ForcedFalse =>
    let mv1 :=
      if c.is_supermajority c.aux_values_true then
        { mv with estimates := BoolSet.from_bool true }
      else if !c.is_supermajority c.aux_values_false then
        { mv with estimates := BoolSet.from_bool false }
      else mv
    { mv1 with step := Step.GenuineFlip }
  | Step.GenuineFlip =>
    let mv1 :=
      if c.is_supermajority c.aux_values_true then
        { mv with estimates := BoolSet.from_bool true }
      else if c.is_supermajority c.aux_values_false then
        { mv with estimates := BoolSet.from_bool false }
      else
        match coin_toss with
        | some t => { mv with estimates := BoolSet.from_bool t }
        | none => { mv with estimates := BoolSet.Empty }
    { mv1 with step := Step.ForcedTrue, round := mv.round + 1 }

/-- MetaVote::next_meta_vote from meta_vote.rs: step advancement happens only for an
undecided parent and only when a supermajority of the others have their aux_value set. -/

def MetaVote.next_meta_vote (parent : Option MetaVote) (others : List (List MetaVote))
    (coin_tosses : Nat → Option Bool) (total_peers : Nat) : Option MetaVote :=
  match parent with
  | none => none
  | some p =>
    if p.decision.isSome then none
    else
      let c := MetaVoteCounts.new p others total_peers
      if c.is_supermajority c.aux_values_set then
        some (MetaVote.increase_step p c (coin_tosses p.round))
      else none

/-- MetaVote::next_meta_vote_print from meta_vote.rs, which is the same computation as
next_meta_vote (the print variant only adds diagnostics). -/

def MetaVote.next_meta_vote_print (parent : Option MetaVote) (others : List (List MetaVote))
    (coin_tosses : Nat → Option Bool) (total_peers : Nat) : Option MetaVote :=
  MetaVote.next_meta_vote parent others coin_tosses total_peers

/-- Numeric position of a step within a round, used for the termination measure of the
while loops of MetaVote::next. -/

def Step.idx : Step → Nat
  | Step.ForcedTrue => 0
  | Step.ForcedFalse => 1
  | Step.GenuineFlip => 2

/-- Combined (round, step) position of a meta-vote; increase_step always advances it. -/

def MetaVote.pos (mv : MetaVote) : Nat := 3 * mv.round + mv.step.idx

/-- Largest round appearing in any of the others' meta-vote vectors. -/

def maxRound (others : List (List MetaVote)) : Nat :=
  others.foldr (fun l m => Nat.max (l.foldr (fun v m2 => Nat.max v.round m2) 0) m) 0

def MetaVote.loopFuel (others : List (List MetaVote)) (last : MetaVote) : Nat :=
  3 * maxRound others + 3 - last.pos

/-- The body of the while loop of MetaVote::next from meta_vote.rs, with explicit fuel:
keep appending step-advanced meta-votes while the advancement condition holds at the last
appended vote. The fuel is only a termination device: by nextLoopF_stable it never cuts
the loop short. -/
def MetaVote.nextLoopF (others : List (List MetaVote)) (coin_tosses : Nat → Option Bool)
    (total_peers : Nat) : Nat → MetaVote → List MetaVote
  | 0, _ => []
  | fuel + 1, last =>
    match MetaVote.next_meta_vote (some last) others coin_tosses total_peers with
    | none => []
    | some v => v :: MetaVote.nextLoopF others coin_tosses total_peers fuel v

/-- The while loop of MetaVote::next from meta_vote.rs. -/

def MetaVote.nextLoop (others : List (List MetaVote)) (coin_tosses : Nat → Option Bool)
    (total_peers : Nat) (last : MetaVote) : List MetaVote :=
  MetaVote.nextLoopF others coin_tosses total_peers (MetaVote.loopFuel others last) last

/-- The body of the while loop of MetaVote::next_print from meta_vote.rs, with explicit
fuel: each step-advanced vote is additionally passed through update_meta_vote before
being appended. -/
def MetaVote.printLoopF (others : List (List MetaVote)) (coin_tosses : Nat → Option Bool)
    (total_peers : Nat) : Nat → MetaVote → List MetaVote
  | 0, _ => []
  | fuel + 1, last =>
    match MetaVote.next_meta_vote_print (some last) others coin_tosses total_peers with
    | none => []
    | some v =>
      let c := MetaVoteCounts.new v others total_peers
      let u := MetaVote.update_meta_vote v c coin_tosses
      u :: MetaVote.printLoopF others coin_tosses total_peers fuel u

/-- The while loop of MetaVote::next_print from meta_vote.rs. -/

def MetaVote.printLoop (others : List (List MetaVote)) (coin_tosses : Nat → Option Bool)
    (total_peers : Nat) (last : MetaVote) : List MetaVote :=
  MetaVote.printLoopF others coin_tosses total_peers (MetaVote.loopFuel others last) last

/-- The for loop of MetaVote::next (and next_print) from meta_vote.rs: update each parent
meta-vote in turn, stopping right after the first update that carries a decision. -/
def MetaVote.updateForPhase (parent : List MetaVote) (others : List (List MetaVote))
    (coin_tosses : Nat → Option Bool) (total_peers : Nat) : List MetaVote :=
  match parent with
  | [] => []
  | v :: rest =>
    let c := MetaVoteCounts.new v others total_peers
    let u := MetaVote.update_meta_vote v c coin_tosses
    if u.decision.isSome then [u]
    else u :: MetaVote.updateForPhase rest others coin_tosses total_peers

/-- MetaVote::next from meta_vote.rs. -/

def MetaVote.next (parent : List MetaVote) (others : List (List MetaVote))
    (coin_tosses : Nat → Option Bool) (total_peers : Nat) : List MetaVote :=
  let fp := MetaVote.updateForPhase parent others coin_tosses total_peers
  match fp.getLast? with
  | none => fp
  | some last => fp ++ MetaVote.nextLoop others coin_tosses total_peers last

/-- MetaVote::next_print from meta_vote.rs: identical to next except that each
step-advanced vote produced by the while loop is updated before being appended. -/

def MetaVote.next_print (parent : List MetaVote) (others : List (List MetaVote))
    (coin_tosses : Nat → Option Bool) (total_peers : Nat) : List MetaVote :=
  let fp := MetaVote.updateForPhase parent others coin_tosses total_peers
  match fp.getLast? with
  | none => fp
  | some last => fp ++ MetaVote.printLoop others coin_tosses total_peers last

/-- MetaVote::new from meta_vote.rs: start from the default meta-vote seeded with the
initial estimate and run next with no coin tosses. -/

def MetaVote.new (initial_estimate : Bool) (others : List (List MetaVote))
    (total_peers : Nat) : List MetaVote :=
  MetaVote.next [{ MetaVote.initial with estimates := BoolSet.from_bool initial_estimate }]
    others (fun _ => none) total_peers

/-- MetaVote::new_print from meta_vote.rs. -/

def MetaVote.new_print (initial_estimate : Bool) (others : List (List MetaVote))
    (total_peers : Nat) : List MetaVote :=
  MetaVote.next_print
    [{ MetaVote.initial with estimates := BoolSet.from_bool initial_estimate }]
    others (fun _ => none) total_peers

/-- The cause of a gossip event, from gossip/cause.rs; hashes and votes are abstracted to
naturals. -/
inductive Cause where
  | Request : Nat → Nat → Cause
  | Response : Nat → Nat → Cause
  | Observation : Nat → Nat → Cause
  | Initial : Cause
deriving DecidableEq

/-- Modelled from the spec: the file content.rs is absent from the sources; per the wire
format section a content is the creator together with the cause. -/
structure Content where
  creator : Nat
  cause : Cause
deriving DecidableEq

/-- Modelled from the spec: the self-parent hash carried by the cause (every non-initial
cause carries one). -/
def Content.self_parent : Content → Option Nat
  | ⟨_, Cause.Request sp _⟩ => some sp
  | ⟨_, Cause.Response sp _⟩ => some sp
  | ⟨_, Cause.Observation sp _⟩ => some sp
  | ⟨_, Cause.Initial⟩ => none

/-- Modelled from the spec: the other-parent hash carried by Request and Response causes. -/
def Content.other_parent : Content → Option Nat
  | ⟨_, Cause.Request _ op⟩ => some op
  | ⟨_, Cause.Response _ op⟩ => some op
  | _ => none

/-- Modelled from the spec: the file packed_event.rs is absent from the sources; a packed
event is the content together with the creator's signature. -/
structure PackedEvent where
  content : Content
  signature : Nat
deriving DecidableEq

/-- Modelled from the spec: the error kinds used by gossip event handling (error.rs is
absent from the sources); SignatureFailure and UnknownParent are produced by unpack,
DuplicateEvent is the duplicate-insertion error named by the spec. -/
inductive Error where
  | SignatureFailure : Error
  | UnknownParent : Error
  | DuplicateEvent : Error
deriving DecidableEq

/-- A gossip event, from gossip/event.rs: content, signature, hash, creator-local index,
last-ancestors map, and the two derived fields that unpack leaves for the caller to set. -/
structure Event where
  content : Content
  signature : Nat
  hash : Nat
  index : Nat
  last_ancestors : Nat → Option Nat
  interesting_content : List Nat
  observations : List Nat

/-- Event::index_and_last_ancestors from gossip/event.rs: an initial event gets index 0
and last_ancestors {creator -> 0}; otherwise the self parent must be in the graph, the
index is the self parent's index plus one, the last ancestors start from the self
parent's, are merged with the other parent's over the known peer list when an other
parent is referenced (which must then be in the graph), and finally map the creator to
the new index. -/
def Event.index_and_last_ancestors (content : Content) (events : Nat → Option Event)
    (peer_list : List Nat) : Except Error (Nat × (Nat → Option Nat)) :=
  match content.self_parent with
  | none =>
    Except.ok (0, fun p => if p = content.creator then some 0 else none)
  | some self_parent_hash =>
    match events self_parent_hash with
    | none => Except.error Error.UnknownParent
    | some self_parent =>
      let index := self_parent.index + 1
      let base := self_parent.last_ancestors
      match content.other_parent with
      | none =>
        Except.ok (index, fun p => if p = content.creator then some index else base p)
      | some other_parent_hash =>
        match events other_parent_hash with
        | none => Except.error Error.UnknownParent
        | some other_parent =>
          let merged := peer_list.foldl
            (fun la p =>
              match other_parent.last_ancestors p with
              | some other_index =>
                fun q => if q = p then
                    some (Nat.max ((la p).getD other_index) other_index)
                  else la q
              | none => la)
            base
          Except.ok (index, fun p => if p = content.creator then some index else merged p)

/-- Event::unpack from gossip/event.rs: verify the signature over the serialised content
(else SignatureFailure), return Ok(None) when the hash is already in the graph, propagate
UnknownParent from index_and_last_ancestors, and otherwise rebuild the event with empty
derived fields. The serialiser, hasher and verifier are opaque parameters. -/
def Event.unpack (serialise : Content → Nat) (hashFn : Nat → Nat)
    (verify : Nat → Nat → Nat → Bool) (packed_event : PackedEvent)
    (events : Nat → Option Event) (peer_list : List Nat) : Except Error (Option Event) :=
  let serialised_content := serialise packed_event.content
  if verify packed_event.content.creator packed_event.signature serialised_content then
    let hash := hashFn serialised_content
    if (events hash).isSome then Except.ok none
    else
      match Event.index_and_last_ancestors packed_event.content events peer_list with
      | Except.error e => Except.error e
      | Except.ok (index, last_ancestors) =>
        Except.ok (some ⟨packed_event.content, packed_event.signature, hash, index,
          last_ancestors, [], []⟩)
  else Except.error Error.SignatureFailure

/-- Event::pack from gossip/event.rs: keep only the content and the signature. -/
def Event.pack (e : Event) : PackedEvent := ⟨e.content, e.signature⟩

/-- usize::MAX, the sentinel sort index used by find_interesting_content_for_event for
payloads the builder's creator did not vote for (64-bit targets). -/
def USIZE_MAX : Nat := 2 ^ 64 - 1

/-- ObservationKey from observation.rs; observation hashes and peer indexes are
abstracted to naturals. -/
inductive ObservationKey where
  | Single : Nat → Nat → ObservationKey
  | Supermajority : Nat → ObservationKey
deriving DecidableEq

/-- ObservationKey::hash from observation.rs. -/
def ObservationKey.hash : ObservationKey → Nat
  | ObservationKey.Single h _ => h
  | ObservationKey.Supermajority h => h

/-- ObservationKey::peer_index from observation.rs. -/
def ObservationKey.peer_index : ObservationKey → Option Nat
  | ObservationKey.Single _ p => some p
  | ObservationKey.Supermajority _ => none

/-- The derived Ord of ObservationKey from observation.rs: variants in declaration order
(Single before Supermajority), then fields lexicographically. -/
def ObservationKey.cmp : ObservationKey → ObservationKey → Ordering
  | ObservationKey.Single h1 p1, ObservationKey.Single h2 p2 =>
    (compare h1 h2).then (compare p1 p2)
  | ObservationKey.Single _ _, ObservationKey.Supermajority _ => Ordering.lt
  | ObservationKey.Supermajority _, ObservationKey.Single _ _ => Ordering.gt
  | ObservationKey.Supermajority h1, ObservationKey.Supermajority h2 => compare h1 h2

/-- The variant tag of the derived Ord, for reasoning about cmp. -/
def ObservationKey.tag : ObservationKey → Nat
  | ObservationKey.Single _ _ => 0
  | ObservationKey.Supermajority _ => 1

/-- The peer component of the derived Ord, for reasoning about cmp. -/
def ObservationKey.peer : ObservationKey → Nat
  | ObservationKey.Single _ p => p
  | ObservationKey.Supermajority _ => 0

/-- The Ord of Rust Option: None sorts before Some. -/
def optionCmp : Option Nat → Option Nat → Ordering
  | none, none => Ordering.eq
  | none, some _ => Ordering.lt
  | some _, none => Ordering.gt
  | some a, some b => compare a b

/-- Rank function interpreting optionCmp as a natural-number comparison. -/
def rkOpt : Option Nat → Nat
  | none => 0
  | some a => a + 1

/-- ObservationKey::consistent_cmp from observation.rs: compare the payload hashes, then
the peer ids obtained by looking a Single key's peer index up in the peer list. -/
def consistent_cmp (peer_list : Nat → Option Nat) (a b : ObservationKey) : Ordering :=
  (compare a.hash b.hash).then
    (optionCmp (a.peer_index.bind peer_list) (b.peer_index.bind peer_list))

/-- The abstract event view consumed by find_interesting_content_for_event
(AbstractEventRef from gossip): creator, index by creator, optional payload key. -/
structure AbsEvent where
  creator : Nat
  index_by_creator : Nat
  payload_key : Option ObservationKey
deriving DecidableEq

/-- The comparator of the first sort in find_interesting_content_for_event: Rust tuple
ordering on (payload key, builder-creator flag). -/
def keyFlagCmp (a b : ObservationKey × Nat) : Ordering :=
  (ObservationKey.cmp a.1 b.1).then (compare a.2 b.2)

/-- The comparator of the second sort in find_interesting_content_for_event: the sort
index first, the consistent comparator for equal indexes. -/
def idxKeyCmp (ccmp : ObservationKey → ObservationKey → Ordering)
    (a b : Nat × ObservationKey) : Ordering :=
  if a.1 = b.1 then ccmp a.2 b.2 else compare a.1 b.1

/-- The itertools group_by of parsec_helpers.rs: group consecutive entries carrying equal
payload keys, collecting their events in order. -/
def groupByPayload : List (AbsEvent × ObservationKey × Nat) →
    List (ObservationKey × List AbsEvent)
  | [] => []
  | (e, k, _) :: rest =>
    match groupByPayload rest with
    | [] => [(k, [e])]
    | (k2, es) :: gs =>
      if k = k2 then (k, e :: es) :: gs else (k, [e]) :: (k2, es) :: gs

/-- The events_to_process stage of find_interesting_content_for_event from
parsec_helpers.rs: descendants of the builder whose payload key is not already
interesting content, tagged with 0 when the event has the builder's creator, else 1. -/
def events_to_process (builder_event : AbsEvent) (unconsensused_events : List AbsEvent)
    (is_descendant : AbsEvent → AbsEvent → Bool)
    (is_already_interesting_content : ObservationKey → Bool) :
    List (AbsEvent × ObservationKey × Nat) :=
  (unconsensused_events.filter (fun e => is_descendant builder_event e)).filterMap
    (fun e =>
      match e.payload_key with
      | some payload_key =>
        if is_already_interesting_content payload_key then none
        else some (e, payload_key,
          if decide (e.creator = builder_event.creator) then 0 else 1)
      | none => none)

/-- The interesting_payload_keys stage of find_interesting_content_for_event from
parsec_helpers.rs: keep the groups with an interesting payload, take the first event of
each group as representative, and pair the key with the representative's index by creator
when it has the builder's creator, else with usize::MAX. -/
def interesting_payload_keys (builder_event : AbsEvent)
    (payload_keys_with_events : List (ObservationKey × List AbsEvent))
    (is_interesting_payload : ObservationKey → Bool) : List (Nat × ObservationKey) :=
  payload_keys_with_events.filterMap
    (fun g =>
      if is_interesting_payload g.1 then
        g.2.head?.map (fun event =>
          ((if decide (event.creator = builder_event.creator) then event.index_by_creator
            else USIZE_MAX), g.1))
      else none)

/-- find_interesting_content_for_event from parsec_helpers.rs. Rust's stable sort_by with
comparator c is modelled by insertion sort on the non-strict relation (c a b is not
Greater). -/
def find_interesting_content_for_event (builder_event : AbsEvent)
    (unconsensused_events : List AbsEvent)
    (ccmp : ObservationKey → ObservationKey → Ordering)
    (is_descendant : AbsEvent → AbsEvent → Bool)
    (is_already_interesting_content : ObservationKey → Bool)
    (is_interesting_payload : ObservationKey → Bool) : List ObservationKey :=
  let sorted := List.insertionSort
    (fun a b : AbsEvent × ObservationKey × Nat => keyFlagCmp a.2 b.2 ≠ Ordering.gt)
    (events_to_process builder_event unconsensused_events is_descendant
      is_already_interesting_content)
  let sorted2 := List.insertionSort
    (fun a b : Nat × ObservationKey => idxKeyCmp ccmp a b ≠ Ordering.gt)
    (interesting_payload_keys builder_event (groupByPayload sorted) is_interesting_payload)
  sorted2.map (fun a => a.2)

/-- An unconsensused event qualifying for the builder event with payload key k: it is in
the unconsensused set, the builder descends from it, it carries k, and k is not already
interesting content. -/
def qualifying (builder : AbsEvent) (unconsensused : List AbsEvent)
    (is_descendant : AbsEvent → AbsEvent → Bool) (is_already : ObservationKey → Bool)
    (e : AbsEvent) (k : ObservationKey) : Prop :=
  e ∈ unconsensused ∧ is_descendant builder e = true ∧ e.payload_key = some k ∧
    is_already k = false

/-- The builder's creator voted for key k among the qualifying events. -/
def creator_voted (builder : AbsEvent) (unconsensused : List AbsEvent)
    (is_descendant : AbsEvent → AbsEvent → Bool) (is_already : ObservationKey → Bool)
    (k : ObservationKey) : Prop :=
  ∃ e, qualifying builder unconsensused is_descendant is_already e k ∧
    e.creator = builder.creator

/-- Test fixture: the builder event for the C9 witness, by peer 6. -/
def c9_builder : AbsEvent := ⟨6, 100, none⟩

/-- Test fixture: four unconsensused events; peer 6 (the builder creator) voted the
payloads with hashes 1 and 2 at indexes 6 and 10. -/
def c9_unconsensused : List AbsEvent :=
  [⟨2, 2, some (ObservationKey.Supermajority 1)⟩,
   ⟨8, 11, some (ObservationKey.Supermajority 1)⟩,
   ⟨6, 6, some (ObservationKey.Supermajority 1)⟩,
   ⟨6, 10, some (ObservationKey.Supermajority 2)⟩]

/-- Test fixture: an initial event by peer 7 with hash 1. -/
def c6_S : Event :=
  ⟨⟨7, Cause.Initial⟩, 0, 1, 0, fun p => if p = 7 then some 0 else none, [], []⟩

/-- Test fixture: an initial event by peer 5 with hash 2. -/
def c6_O : Event :=
  ⟨⟨5, Cause.Initial⟩, 0, 2, 0, fun p => if p = 5 then some 0 else none, [], []⟩

/-- Test fixture: the content of a request event by peer 7 referencing hashes 1 and 2. -/
def c6_content : Content := ⟨7, Cause.Request 1 2⟩

/-- Test fixture: a graph holding the two initial events at their hashes. -/
def c6_events : Nat → Option Event :=
  fun h => if h = 1 then some c6_S else if h = 2 then some c6_O else none

/-- Test fixture: an initial event by peer 0 with hash 7, as built by the creation path
with the trivial serialiser (everything serialises to 0) and hasher (everything hashes
to 7). -/
def c7_e : Event :=
  ⟨⟨0, Cause.Initial⟩, 0, 7, 0, fun p => if p = 0 then some 0 else none, [], []⟩

/-- Test fixture: an undecided meta-vote with both estimates and bin values full. -/
def c5_mv : MetaVote := ⟨0, Step.ForcedTrue, BoolSet.Both, BoolSet.Both, some true, none⟩

/-- Test fixture: three other voters all holding true estimates, bin values and aux. -/
def c5_others : List (List MetaVote) :=
  [[⟨0, Step.ForcedTrue, BoolSet.Single true, BoolSet.Single true, some true, none⟩],
   [⟨0, Step.ForcedTrue, BoolSet.Single true, BoolSet.Single true, some true, none⟩],
   [⟨0, Step.ForcedTrue, BoolSet.Single true, BoolSet.Single true, some true, none⟩]]

/-- Test fixture: an undecided meta-vote with empty estimates and bin values. -/
def c2_mv_a : MetaVote := ⟨0, Step.ForcedTrue, BoolSet.Empty, BoolSet.Empty, none, none⟩

/-- Test fixture: two other voters (of three peers) holding true in estimates. -/
def c2_others_a : List (List MetaVote) :=
  [[⟨0, Step.ForcedTrue, BoolSet.Single true, BoolSet.Empty, none, none⟩],
   [⟨0, Step.ForcedTrue, BoolSet.Single true, BoolSet.Empty, none, none⟩]]

/-- Test fixture: an undecided meta-vote whose aux value is already set to false. -/
def c2_mv_b : MetaVote :=
  ⟨0, Step.ForcedTrue, BoolSet.Single false, BoolSet.Single false, some false, none⟩

/-- Test fixture: one other voter (of four peers) already carrying decision true. -/
def c2_others_b : List (List MetaVote) :=
  [[⟨0, Step.ForcedTrue, BoolSet.Single true, BoolSet.Single true, some true, some true⟩]]

/-- Test fixture: an undecided ForcedTrue vote holding true everywhere. -/
def c3_p : MetaVote :=
  ⟨0, Step.ForcedTrue, BoolSet.Single true, BoolSet.Single true, some true, none⟩

/-- Test fixture: three other voters (of four peers) whose ForcedTrue votes carry aux
values true, true and false. -/
def c3_others : List (List MetaVote) :=
  [[⟨0, Step.ForcedTrue, BoolSet.Single true, BoolSet.Single true, some true, none⟩],
   [⟨0, Step.ForcedTrue, BoolSet.Single true, BoolSet.Single true, some true, none⟩],
   [⟨0, Step.ForcedTrue, BoolSet.Single true, BoolSet.Single true, some false, none⟩]]

/-- Test fixture: a parent vector with one undecided vote holding true everywhere. -/
def c10_parent : List MetaVote :=
  [⟨0, Step.ForcedTrue, BoolSet.Single true, BoolSet.Single true, some true, none⟩]

/-- Test fixture: three other voters (of four peers) whose ForcedTrue votes carry aux
values true, true and false, and whose ForcedFalse votes hold false in estimates. -/
def c10_others : List (List MetaVote) :=
  [[⟨0, Step.ForcedTrue, BoolSet.Single true, BoolSet.Single true, some true, none⟩,
    ⟨0, Step.ForcedFalse, BoolSet.Single false, BoolSet.Empty, none, none⟩],
   [⟨0, Step.ForcedTrue, BoolSet.Single true, BoolSet.Single true, some true, none⟩,
    ⟨0, Step.ForcedFalse, BoolSet.Single false, BoolSet.Empty, none, none⟩],
   [⟨0, Step.ForcedTrue, BoolSet.Single true, BoolSet.Single true, some false, none⟩,
    ⟨0, Step.ForcedFalse, BoolSet.Single false, BoolSet.Empty, none, none⟩]]

theorem Step.idx_le (s : Step) : s.idx ≤ 2 := by cases s <;> simp [Step.idx]

theorem round_le_foldr {v : MetaVote} {l : List MetaVote} (hv : v ∈ l) :
    v.round ≤ l.foldr (fun w m2 => Nat.max w.round m2) 0 := by
  induction l with
  | nil => cases hv
  | cons x xs ih =>
    rcases List.mem_cons.mp hv with h | h
    · subst h; exact Nat.le_max_left _ _
    · exact le_trans (ih h) (Nat.le_max_right _ _)

theorem round_le_maxRound {v : MetaVote} {l : List MetaVote} {others : List (List MetaVote)}
    (hv : v ∈ l) (hl : l ∈ others) : v.round ≤ maxRound others := by
  induction others with
  | nil => cases hl
  | cons hd tl ih =>
    rcases List.mem_cons.mp hl with h | h
    · subst h; exact le_trans (round_le_foldr hv) (Nat.le_max_left _ _)
    · exact le_trans (ih h) (Nat.le_max_right _ _)

theorem counts_new_of_no_match {p : MetaVote} {others : List (List MetaVote)} {n : Nat}
    (h : ∀ l ∈ others,
      l.find? (fun v => decide (v.round = p.round) && decide (v.step = p.step)) = none) :
    MetaVoteCounts.new p others n = ⟨0, 0, 0, 0, 0, 0, none, n⟩ := by
  unfold MetaVoteCounts.new
  induction others with
  | nil => rfl
  | cons hd tl ih =>
    have hhd := h hd (by simp)
    simp only [List.foldl, hhd]
    exact ih (fun l hl => h l (by simp [hl]))

theorem supermajority_aux_imp_match {p : MetaVote} {others : List (List MetaVote)} {n : Nat}
    (h : (MetaVoteCounts.new p others n).is_supermajority
          (MetaVoteCounts.new p others n).aux_values_set = true) :
    ∃ l ∈ others, ∃ v ∈ l, v.round = p.round ∧ v.step = p.step := by
  by_contra hno
  push_neg at hno
  have hnone : ∀ l ∈ others,
      l.find? (fun v => decide (v.round = p.round) && decide (v.step = p.step)) = none := by
    intro l hl
    rw [List.find?_eq_none]
    intro v hv
    simp only [Bool.and_eq_true, decide_eq_true_eq, not_and]
    intro hr hs
    exact absurd hs (hno l hl v hv hr)
  rw [counts_new_of_no_match hnone] at h
  simp [MetaVoteCounts.is_supermajority, MetaVoteCounts.aux_values_set] at h

theorem increase_step_round_step (p : MetaVote) (c : MetaVoteCounts) (t : Option Bool) :
    ((MetaVote.increase_step p c t).round =
        (if p.step = Step.GenuineFlip then p.round + 1 else p.round)) ∧
    ((MetaVote.increase_step p c t).step =
        (match p.step with
         | Step.ForcedTrue => Step.ForcedFalse
         | Step.ForcedFalse => Step.GenuineFlip
         | Step.GenuineFlip => Step.ForcedTrue)) := by
  simp only [MetaVote.increase_step]
  cases hs : p.step <;>
    simp only [hs] <;>
    constructor <;>
    (repeat' split) <;>
    (try cases t) <;>
    simp_all

theorem increase_step_pos (p : MetaVote) (c : MetaVoteCounts) (t : Option Bool) :
    (MetaVote.increase_step p c t).pos = p.pos + 1 := by
  obtain ⟨h1, h2⟩ := increase_step_round_step p c t
  unfold MetaVote.pos
  rw [h1, h2]
  cases hs : p.step <;> simp [hs, Step.idx] <;> omega

theorem next_meta_vote_some {p v : MetaVote} {others : List (List MetaVote)}
    {tosses : Nat → Option Bool} {n : Nat}
    (h : MetaVote.next_meta_vote (some p) others tosses n = some v) :
    p.decision = none ∧
    (MetaVoteCounts.new p others n).is_supermajority
      (MetaVoteCounts.new p others n).aux_values_set = true ∧
    v = MetaVote.increase_step p (MetaVoteCounts.new p others n) (tosses p.round) := by
  unfold MetaVote.next_meta_vote at h
  by_cases hd : p.decision.isSome
  · simp [hd] at h
  · simp only [hd, Bool.false_eq_true, if_false] at h
    by_cases hs : (MetaVoteCounts.new p others n).is_supermajority
        (MetaVoteCounts.new p others n).aux_values_set
    · refine ⟨?_, hs, ?_⟩
      · cases hp : p.decision
        · rfl
        · rw [hp] at hd; simp at hd
      · simp only [hs, if_true] at h
        exact (Option.some_inj.mp h).symm
    · simp [hs] at h

theorem next_meta_vote_pos_lt {p v : MetaVote} {others : List (List MetaVote)}
    {tosses : Nat → Option Bool} {n : Nat}
    (h : MetaVote.next_meta_vote (some p) others tosses n = some v) :
    v.pos = p.pos + 1 ∧ p.pos ≤ 3 * maxRound others + 2 := by
  obtain ⟨-, hs, hv⟩ := next_meta_vote_some h
  obtain ⟨l, hl, w, hw, hr, -⟩ := supermajority_aux_imp_match hs
  have hle : p.round ≤ maxRound others := hr ▸ round_le_maxRound hw hl
  have hidx := Step.idx_le p.step
  constructor
  · rw [hv]; exact increase_step_pos _ _ _
  · unfold MetaVote.pos; omega

/-- Fuel needed for the while loop starting at a given last vote: the (round, step)
position advances by one at every iteration and can never pass the largest round present
in the others' vectors, so this bound is never reached (nextLoopF_stable below). -/

theorem loopFuel_zero_none {others : List (List MetaVote)} {tosses : Nat → Option Bool}
    {n : Nat} {last : MetaVote} (h : MetaVote.loopFuel others last = 0) :
    MetaVote.next_meta_vote (some last) others tosses n = none := by
  cases hnv : MetaVote.next_meta_vote (some last) others tosses n with
  | none => rfl
  | some v =>
    obtain ⟨hp, hb⟩ := next_meta_vote_pos_lt hnv
    unfold MetaVote.loopFuel at h
    omega

/-- Any amount of fuel at least the loop bound produces the same list, so the fuelled
loop agrees with the unbounded while loop of the source. -/
theorem nextLoopF_stable (others : List (List MetaVote)) (tosses : Nat → Option Bool)
    (n : Nat) :
    ∀ f1 f2 last, MetaVote.loopFuel others last ≤ f1 → MetaVote.loopFuel others last ≤ f2 →
      MetaVote.nextLoopF others tosses n f1 last = MetaVote.nextLoopF others tosses n f2 last := by
  intro f1
  induction f1 with
  | zero =>
    intro f2 last h1 h2
    have hnone : MetaVote.next_meta_vote (some last) others tosses n = none :=
      loopFuel_zero_none (by omega)
    cases f2 with
    | zero => rfl
    | succ g => simp [MetaVote.nextLoopF, hnone]
  | succ g ih =>
    intro f2 last h1 h2
    cases f2 with
    | zero =>
      have hnone : MetaVote.next_meta_vote (some last) others tosses n = none :=
        loopFuel_zero_none (by omega)
      simp [MetaVote.nextLoopF, hnone]
    | succ k =>
      simp only [MetaVote.nextLoopF]
      cases hnv : MetaVote.next_meta_vote (some last) others tosses n with
      | none => rfl
      | some v =>
        obtain ⟨hp, hb⟩ := next_meta_vote_pos_lt hnv
        have hv1 : MetaVote.loopFuel others v ≤ g := by
          unfold MetaVote.loopFuel at h1 ⊢; omega
        have hv2 : MetaVote.loopFuel others v ≤ k := by
          unfold MetaVote.loopFuel at h2 ⊢; omega
        dsimp only
        rw [ih k v hv1 hv2]

theorem cne_shape (mv : MetaVote) (c : MetaVoteCounts) (toss : Option Bool) :
    ∃ est c2, MetaVote.calculate_new_estimates mv c toss = ({ mv with estimates := est }, c2) := by
  simp only [MetaVote.calculate_new_estimates]
  split
  · cases toss with
    | none => exact ⟨mv.estimates, c, rfl⟩
    | some t => exact ⟨_, _, rfl⟩
  · repeat' split
    all_goals exact ⟨_, _, rfl⟩

theorem cnb_shape (mv : MetaVote) (c : MetaVoteCounts) :
    ∃ bv c2, MetaVote.calculate_new_bin_values mv c = ({ mv with bin_values := bv }, c2) := by
  simp only [MetaVote.calculate_new_bin_values]
  repeat' split
  all_goals exact ⟨_, _, rfl⟩

theorem cna_shape (mv : MetaVote) (c : MetaVoteCounts) (we : Bool) :
    ∃ av c2, MetaVote.calculate_new_auxiliary_value mv c we = ({ mv with aux_value := av }, c2) := by
  simp only [MetaVote.calculate_new_auxiliary_value]
  repeat' split
  all_goals exact ⟨_, _, rfl⟩

theorem cnd_shape (mv : MetaVote) (c : MetaVoteCounts) :
    MetaVote.calculate_new_decision mv c = mv ∨
    ∃ d, MetaVote.calculate_new_decision mv c =
      { mv with estimates := BoolSet.from_bool d, bin_values := BoolSet.from_bool d,
                aux_value := some d, decision := some d } := by
  simp only [MetaVote.calculate_new_decision]
  split
  · exact Or.inr ⟨_, rfl⟩
  · exact Or.inl rfl

theorem update_round_step (mv : MetaVote) (c : MetaVoteCounts) (t : Nat → Option Bool) :
    (MetaVote.update_meta_vote mv c t).round = mv.round ∧
    (MetaVote.update_meta_vote mv c t).step = mv.step := by
  unfold MetaVote.update_meta_vote
  split
  · exact ⟨rfl, rfl⟩
  · dsimp only
    obtain ⟨est, c1, h1⟩ := cne_shape mv c (t mv.round)
    rw [h1]
    obtain ⟨bv, c2, h2⟩ := cnb_shape { mv with estimates := est } c1
    rw [h2]
    obtain ⟨av, c3, h3⟩ :=
      cna_shape { mv with estimates := est, bin_values := bv } c2
        ({ mv with estimates := est } : MetaVote).bin_values.is_empty
    rw [h3]
    rcases cnd_shape { mv with estimates := est, bin_values := bv, aux_value := av } c3 with
      h4 | ⟨d, h4⟩ <;> rw [h4] <;> exact ⟨rfl, rfl⟩

theorem update_pos (mv : MetaVote) (c : MetaVoteCounts) (t : Nat → Option Bool) :
    (MetaVote.update_meta_vote mv c t).pos = mv.pos := by
  obtain ⟨h1, h2⟩ := update_round_step mv c t
  unfold MetaVote.pos
  rw [h1, h2]

/-- Fuel irrelevance for the print variant of the while loop. -/
theorem printLoopF_stable (others : List (List MetaVote)) (tosses : Nat → Option Bool)
    (n : Nat) :
    ∀ f1 f2 last, MetaVote.loopFuel others last ≤ f1 → MetaVote.loopFuel others last ≤ f2 →
      MetaVote.printLoopF others tosses n f1 last =
        MetaVote.printLoopF others tosses n f2 last := by
  intro f1
  induction f1 with
  | zero =>
    intro f2 last h1 h2
    have hnone : MetaVote.next_meta_vote (some last) others tosses n = none :=
      loopFuel_zero_none (by omega)
    cases f2 with
    | zero => rfl
    | succ g => simp [MetaVote.printLoopF, MetaVote.next_meta_vote_print, hnone]
  | succ g ih =>
    intro f2 last h1 h2
    cases f2 with
    | zero =>
      have hnone : MetaVote.next_meta_vote (some last) others tosses n = none :=
        loopFuel_zero_none (by omega)
      simp [MetaVote.printLoopF, MetaVote.next_meta_vote_print, hnone]
    | succ k =>
      simp only [MetaVote.printLoopF, MetaVote.next_meta_vote_print]
      cases hnv : MetaVote.next_meta_vote (some last) others tosses n with
      | none => rfl
      | some v =>
        obtain ⟨hp, hb⟩ := next_meta_vote_pos_lt hnv
        have hu : (MetaVote.update_meta_vote v (MetaVoteCounts.new v others n) tosses).pos
            = v.pos := update_pos _ _ _
        have hv1 : MetaVote.loopFuel others
            (MetaVote.update_meta_vote v (MetaVoteCounts.new v others n) tosses) ≤ g := by
          unfold MetaVote.loopFuel at h1 ⊢; omega
        have hv2 : MetaVote.loopFuel others
            (MetaVote.update_meta_vote v (MetaVoteCounts.new v others n) tosses) ≤ k := by
          unfold MetaVote.loopFuel at h2 ⊢; omega
        simp only []
        rw [ih k _ hv1 hv2]

theorem insert_contains (s : BoolSet) (x b : Bool) :
    (s.insert x).1.contains b = (s.contains b || (x == b)) := by
  cases s with
  | Empty => cases x <;> cases b <;> rfl
  | Single s0 => cases s0 <;> cases x <;> cases b <;> rfl
  | Both => cases x <;> cases b <;> rfl

theorem is_empty_iff (s : BoolSet) : s.is_empty = true ↔ s = BoolSet.Empty := by
  cases s <;> simp [BoolSet.is_empty]

theorem cne_preserves (mv : MetaVote) (c : MetaVoteCounts) (toss : Option Bool) :
    (MetaVote.calculate_new_estimates mv c toss).1.round = mv.round ∧
    (MetaVote.calculate_new_estimates mv c toss).1.step = mv.step ∧
    (MetaVote.calculate_new_estimates mv c toss).1.bin_values = mv.bin_values ∧
    (MetaVote.calculate_new_estimates mv c toss).1.aux_value = mv.aux_value ∧
    (MetaVote.calculate_new_estimates mv c toss).1.decision = mv.decision := by
  obtain ⟨est, c2, h⟩ := cne_shape mv c toss
  rw [h]
  exact ⟨rfl, rfl, rfl, rfl, rfl⟩

theorem cnb_preserves (mv : MetaVote) (c : MetaVoteCounts) :
    (MetaVote.calculate_new_bin_values mv c).1.round = mv.round ∧
    (MetaVote.calculate_new_bin_values mv c).1.step = mv.step ∧
    (MetaVote.calculate_new_bin_values mv c).1.estimates = mv.estimates ∧
    (MetaVote.calculate_new_bin_values mv c).1.aux_value = mv.aux_value ∧
    (MetaVote.calculate_new_bin_values mv c).1.decision = mv.decision := by
  obtain ⟨bv, c2, h⟩ := cnb_shape mv c
  rw [h]
  exact ⟨rfl, rfl, rfl, rfl, rfl⟩

theorem cna_preserves (mv : MetaVote) (c : MetaVoteCounts) (we : Bool) :
    (MetaVote.calculate_new_auxiliary_value mv c we).1.round = mv.round ∧
    (MetaVote.calculate_new_auxiliary_value mv c we).1.step = mv.step ∧
    (MetaVote.calculate_new_auxiliary_value mv c we).1.estimates = mv.estimates ∧
    (MetaVote.calculate_new_auxiliary_value mv c we).1.bin_values = mv.bin_values ∧
    (MetaVote.calculate_new_auxiliary_value mv c we).1.decision = mv.decision := by
  obtain ⟨av, c2, h⟩ := cna_shape mv c we
  rw [h]
  exact ⟨rfl, rfl, rfl, rfl, rfl⟩

theorem update_of_decided (mv : MetaVote) (c : MetaVoteCounts) (t : Nat → Option Bool)
    (h : mv.decision.isSome = true) : MetaVote.update_meta_vote mv c t = mv := by
  simp [MetaVote.update_meta_vote, h]

theorem update_eq (mv : MetaVote) (c : MetaVoteCounts) (t : Nat → Option Bool)
    (h : mv.decision = none) :
    MetaVote.update_meta_vote mv c t =
      MetaVote.calculate_new_decision
        (MetaVote.calculate_new_auxiliary_value
          (MetaVote.calculate_new_bin_values
            (MetaVote.calculate_new_estimates mv c (t mv.round)).1
            (MetaVote.calculate_new_estimates mv c (t mv.round)).2).1
          (MetaVote.calculate_new_bin_values
            (MetaVote.calculate_new_estimates mv c (t mv.round)).1
            (MetaVote.calculate_new_estimates mv c (t mv.round)).2).2
          (MetaVote.calculate_new_estimates mv c (t mv.round)).1.bin_values.is_empty).1
        (MetaVote.calculate_new_auxiliary_value
          (MetaVote.calculate_new_bin_values
            (MetaVote.calculate_new_estimates mv c (t mv.round)).1
            (MetaVote.calculate_new_estimates mv c (t mv.round)).2).1
          (MetaVote.calculate_new_bin_values
            (MetaVote.calculate_new_estimates mv c (t mv.round)).1
            (MetaVote.calculate_new_estimates mv c (t mv.round)).2).2
          (MetaVote.calculate_new_estimates mv c (t mv.round)).1.bin_values.is_empty).2 := by
  simp [MetaVote.update_meta_vote, h]

theorem cnd_of_decision_none (mv : MetaVote) (c : MetaVoteCounts)
    (h : (MetaVote.calculate_new_decision mv c).decision = none) :
    MetaVote.calculate_new_decision mv c = mv := by
  rcases cnd_shape mv c with h4 | ⟨d, h4⟩
  · exact h4
  · rw [h4] at h; simp at h

theorem cnd_of_decision_some (mv : MetaVote) (c : MetaVoteCounts) (d : Bool)
    (hmv : mv.decision = none)
    (h : (MetaVote.calculate_new_decision mv c).decision = some d) :
    MetaVote.calculate_new_decision mv c =
      { mv with estimates := BoolSet.from_bool d, bin_values := BoolSet.from_bool d,
                aux_value := some d, decision := some d } := by
  rcases cnd_shape mv c with h4 | ⟨e, h4⟩
  · rw [h4] at h; rw [hmv] at h; cases h
  · rw [h4] at h ⊢
    simp only [Option.some_inj] at h
    rw [h]

theorem alot_et (c : MetaVoteCounts) (k n : Nat) :
    MetaVoteCounts.at_least_one_third { c with estimates_true := k } n =
      MetaVoteCounts.at_least_one_third c n := rfl

theorem alot_ef (c : MetaVoteCounts) (k n : Nat) :
    MetaVoteCounts.at_least_one_third { c with estimates_false := k } n =
      MetaVoteCounts.at_least_one_third c n := rfl

theorem ismaj_bvt (c : MetaVoteCounts) (k n : Nat) :
    MetaVoteCounts.is_supermajority { c with bin_values_true := k } n =
      MetaVoteCounts.is_supermajority c n := rfl

theorem ismaj_bvf (c : MetaVoteCounts) (k n : Nat) :
    MetaVoteCounts.is_supermajority { c with bin_values_false := k } n =
      MetaVoteCounts.is_supermajority c n := rfl

theorem cne_estimates_contains (mv : MetaVote) (c : MetaVoteCounts) (toss : Option Bool)
    (b : Bool) :
    (MetaVote.calculate_new_estimates mv c toss).1.estimates.contains b =
      (if mv.estimates.is_empty then
        (match toss with | some t => t == b | none => false)
      else
        (mv.estimates.contains b ||
          (b && c.at_least_one_third c.estimates_true) ||
          (!b && c.at_least_one_third c.estimates_false))) := by
  cases hset : mv.estimates with
  | Empty =>
    cases toss <;>
      simp [MetaVote.calculate_new_estimates, hset, BoolSet.is_empty, BoolSet.from_bool,
        BoolSet.contains]
  | Single s0 =>
    cases s0 <;> cases b <;>
      cases hT : c.at_least_one_third c.estimates_true <;>
        cases hF : c.at_least_one_third c.estimates_false <;>
          simp [MetaVote.calculate_new_estimates, hset, hT, hF, alot_et, alot_ef,
            BoolSet.is_empty, BoolSet.insert, BoolSet.contains, BoolSet.from_bool]
  | Both =>
    cases b <;>
      cases hT : c.at_least_one_third c.estimates_true <;>
        cases hF : c.at_least_one_third c.estimates_false <;>
          simp [MetaVote.calculate_new_estimates, hset, hT, hF, alot_et, alot_ef,
            BoolSet.is_empty, BoolSet.insert, BoolSet.contains, BoolSet.from_bool]

theorem cnb_bin_values_contains (mv : MetaVote) (c : MetaVoteCounts) (b : Bool) :
    (MetaVote.calculate_new_bin_values mv c).1.bin_values.contains b =
      (mv.bin_values.contains b ||
        (b && c.is_supermajority c.estimates_true) ||
        (!b && c.is_supermajority c.estimates_false)) := by
  cases hset : mv.bin_values with
  | Empty =>
    cases b <;>
      cases hT : c.is_supermajority c.estimates_true <;>
        cases hF : c.is_supermajority c.estimates_false <;>
          simp [MetaVote.calculate_new_bin_values, hset, hT, hF, ismaj_bvt, ismaj_bvf,
            BoolSet.insert, BoolSet.contains, BoolSet.from_bool]
  | Single s0 =>
    cases s0 <;> cases b <;>
      cases hT : c.is_supermajority c.estimates_true <;>
        cases hF : c.is_supermajority c.estimates_false <;>
          simp [MetaVote.calculate_new_bin_values, hset, hT, hF, ismaj_bvt, ismaj_bvf,
            BoolSet.insert, BoolSet.contains, BoolSet.from_bool]
  | Both =>
    cases b <;>
      cases hT : c.is_supermajority c.estimates_true <;>
        cases hF : c.is_supermajority c.estimates_false <;>
          simp [MetaVote.calculate_new_bin_values, hset, hT, hF, ismaj_bvt, ismaj_bvf,
            BoolSet.insert, BoolSet.contains, BoolSet.from_bool]

theorem cna_aux_value (mv : MetaVote) (c : MetaVoteCounts) (we : Bool) :
    (MetaVote.calculate_new_auxiliary_value mv c we).1.aux_value =
      (if mv.aux_value.isSome then mv.aux_value
       else if we then
         (if mv.bin_values.len = 1 then some (mv.bin_values.contains true)
          else if mv.bin_values.len = 2 then some true
          else none)
       else none) := by
  cases ha : mv.aux_value <;> cases we <;>
    cases hbv : mv.bin_values <;>
      first
        | (rename_i s0
           cases s0 <;>
             simp_all [MetaVote.calculate_new_auxiliary_value, BoolSet.len, BoolSet.contains])
        | simp_all [MetaVote.calculate_new_auxiliary_value, BoolSet.len, BoolSet.contains]

theorem contains_ne_empty {s : BoolSet} {b : Bool} (h : s.contains b = true) :
    s.is_empty = false := by
  cases s <;> simp_all [BoolSet.contains, BoolSet.is_empty]

theorem decision_none_of_not_isSome {o : Option Bool} (h : ¬o.isSome = true) : o = none := by
  cases o with
  | none => rfl
  | some d => simp at h

/-- C1, counterexample to the claim as stated. First input: a MetaVote with empty
estimates, no coin toss available for its round, and one other voter (of three peers)
holding true in its estimates, so at least one-third of the others hold true; the claim
says true is then added to the estimates, but update_meta_vote leaves the estimates
empty. Second input: empty estimates with a coin toss of false available, but another
voter already carries decision true; the claim says estimates become the singleton of
the toss {false}, yet update_meta_vote ends with estimates {true}. -/
theorem claim_C1_counterexample :
    ((MetaVoteCounts.new ⟨0, Step.ForcedTrue, BoolSet.Empty, BoolSet.Empty, none, none⟩
        [[⟨0, Step.ForcedTrue, BoolSet.Single true, BoolSet.Empty, none, none⟩]]
        3).at_least_one_third
      (MetaVoteCounts.new ⟨0, Step.ForcedTrue, BoolSet.Empty, BoolSet.Empty, none, none⟩
        [[⟨0, Step.ForcedTrue, BoolSet.Single true, BoolSet.Empty, none, none⟩]]
        3).estimates_true = true ∧
     (MetaVote.update_meta_vote ⟨0, Step.ForcedTrue, BoolSet.Empty, BoolSet.Empty, none, none⟩
        (MetaVoteCounts.new ⟨0, Step.ForcedTrue, BoolSet.Empty, BoolSet.Empty, none, none⟩
          [[⟨0, Step.ForcedTrue, BoolSet.Single true, BoolSet.Empty, none, none⟩]] 3)
        (fun _ => none)).estimates.contains true = false) ∧
    ((MetaVote.update_meta_vote ⟨0, Step.ForcedTrue, BoolSet.Empty, BoolSet.Empty, none, none⟩
        (MetaVoteCounts.new ⟨0, Step.ForcedTrue, BoolSet.Empty, BoolSet.Empty, none, none⟩
          [[⟨0, Step.ForcedTrue, BoolSet.Single true, BoolSet.Single true, some true,
            some true⟩]] 4)
        (fun _ => some false)).estimates = BoolSet.Single true) := by
  exact ⟨⟨by decide, by decide⟩, by decide⟩

/-- C1 (amended): for an undecided MetaVote, when the whole update reaches no decision,
the resulting estimates are: the singleton of the coin toss if the estimates were empty
and a toss is available; unchanged (still empty) if empty with no toss; otherwise the old
estimates plus true (resp. false) exactly when at least one-third (of total_peers) of the
others hold that value in their estimates. When the update reaches decision d, the
estimates are overridden to the singleton {d}. -/
theorem claim_C1_amended (mv : MetaVote) (others : List (List MetaVote))
    (tosses : Nat → Option Bool) (total : Nat) (h : mv.decision = none) :
    ((MetaVote.update_meta_vote mv (MetaVoteCounts.new mv others total) tosses).decision =
        none →
      ∀ b, (MetaVote.update_meta_vote mv (MetaVoteCounts.new mv others total)
            tosses).estimates.contains b =
        (if mv.estimates.is_empty then
          (match tosses mv.round with | some t => t == b | none => false)
        else
          (mv.estimates.contains b ||
            (b && (MetaVoteCounts.new mv others total).at_least_one_third
                    (MetaVoteCounts.new mv others total).estimates_true) ||
            (!b && (MetaVoteCounts.new mv others total).at_least_one_third
                    (MetaVoteCounts.new mv others total).estimates_false)))) ∧
    (∀ d, (MetaVote.update_meta_vote mv (MetaVoteCounts.new mv others total)
            tosses).decision = some d →
      (MetaVote.update_meta_vote mv (MetaVoteCounts.new mv others total)
        tosses).estimates = BoolSet.Single d) := by
  have hu := update_eq mv (MetaVoteCounts.new mv others total) tosses h
  constructor
  · intro hdec b
    rw [hu] at hdec ⊢
    have h3 := cnd_of_decision_none _ _ hdec
    rw [h3]
    rw [(cna_preserves _ _ _).2.2.1]
    rw [(cnb_preserves _ _).2.2.1]
    exact cne_estimates_contains mv _ (tosses mv.round) b
  · intro d hdec
    rw [hu] at hdec ⊢
    have hX : (MetaVote.calculate_new_auxiliary_value
        (MetaVote.calculate_new_bin_values
          (MetaVote.calculate_new_estimates mv (MetaVoteCounts.new mv others total)
            (tosses mv.round)).1
          (MetaVote.calculate_new_estimates mv (MetaVoteCounts.new mv others total)
            (tosses mv.round)).2).1
        (MetaVote.calculate_new_bin_values
          (MetaVote.calculate_new_estimates mv (MetaVoteCounts.new mv others total)
            (tosses mv.round)).1
          (MetaVote.calculate_new_estimates mv (MetaVoteCounts.new mv others total)
            (tosses mv.round)).2).2
        (MetaVote.calculate_new_estimates mv (MetaVoteCounts.new mv others total)
          (tosses mv.round)).1.bin_values.is_empty).1.decision = none := by
      rw [(cna_preserves _ _ _).2.2.2.2, (cnb_preserves _ _).2.2.2.2,
        (cne_preserves _ _ _).2.2.2.2]
      exact h
    have h3 := cnd_of_decision_some _ _ d hX hdec
    rw [h3]
    rfl

/-- C1 amended claim witness at a concrete input: an undecided vote with non-empty
estimates, one other voter and three peers. -/
theorem claim_C1_amended_witness :
    (⟨0, Step.ForcedTrue, BoolSet.Single true, BoolSet.Empty, none, none⟩ : MetaVote).decision
        = none ∧
    (((MetaVote.update_meta_vote ⟨0, Step.ForcedTrue, BoolSet.Single true, BoolSet.Empty,
          none, none⟩
        (MetaVoteCounts.new ⟨0, Step.ForcedTrue, BoolSet.Single true, BoolSet.Empty, none,
          none⟩ [[⟨0, Step.ForcedTrue, BoolSet.Single true, BoolSet.Empty, none, none⟩]] 3)
        (fun _ => none)).decision = none →
      ∀ b, (MetaVote.update_meta_vote ⟨0, Step.ForcedTrue, BoolSet.Single true,
            BoolSet.Empty, none, none⟩
          (MetaVoteCounts.new ⟨0, Step.ForcedTrue, BoolSet.Single true, BoolSet.Empty, none,
            none⟩ [[⟨0, Step.ForcedTrue, BoolSet.Single true, BoolSet.Empty, none, none⟩]] 3)
          (fun _ => none)).estimates.contains b =
        (if (⟨0, Step.ForcedTrue, BoolSet.Single true, BoolSet.Empty, none, none⟩ :
              MetaVote).estimates.is_empty then
          (match (fun _ => (none : Option Bool)) 0 with | some t => t == b | none => false)
        else
          ((⟨0, Step.ForcedTrue, BoolSet.Single true, BoolSet.Empty, none, none⟩ :
              MetaVote).estimates.contains b ||
            (b && (MetaVoteCounts.new ⟨0, Step.ForcedTrue, BoolSet.Single true,
                BoolSet.Empty, none, none⟩
                [[⟨0, Step.ForcedTrue, BoolSet.Single true, BoolSet.Empty, none, none⟩]]
                3).at_least_one_third
                (MetaVoteCounts.new ⟨0, Step.ForcedTrue, BoolSet.Single true, BoolSet.Empty,
                  none, none⟩
                  [[⟨0, Step.ForcedTrue, BoolSet.Single true, BoolSet.Empty, none, none⟩]]
                  3).estimates_true) ||
            (!b && (MetaVoteCounts.new ⟨0, Step.ForcedTrue, BoolSet.Single true,
                BoolSet.Empty, none, none⟩
                [[⟨0, Step.ForcedTrue, BoolSet.Single true, BoolSet.Empty, none, none⟩]]
                3).at_least_one_third
                (MetaVoteCounts.new ⟨0, Step.ForcedTrue, BoolSet.Single true, BoolSet.Empty,
                  none, none⟩
                  [[⟨0, Step.ForcedTrue, BoolSet.Single true, BoolSet.Empty, none, none⟩]]
                  3).estimates_false)))) ∧
      (∀ d, (MetaVote.update_meta_vote ⟨0, Step.ForcedTrue, BoolSet.Single true,
            BoolSet.Empty, none, none⟩
          (MetaVoteCounts.new ⟨0, Step.ForcedTrue, BoolSet.Single true, BoolSet.Empty, none,
            none⟩ [[⟨0, Step.ForcedTrue, BoolSet.Single true, BoolSet.Empty, none, none⟩]] 3)
          (fun _ => none)).decision = some d →
        (MetaVote.update_meta_vote ⟨0, Step.ForcedTrue, BoolSet.Single true, BoolSet.Empty,
            none, none⟩
          (MetaVoteCounts.new ⟨0, Step.ForcedTrue, BoolSet.Single true, BoolSet.Empty, none,
            none⟩ [[⟨0, Step.ForcedTrue, BoolSet.Single true, BoolSet.Empty, none, none⟩]] 3)
          (fun _ => none)).estimates = BoolSet.Single d)) :=
  ⟨by decide,
   claim_C1_amended ⟨0, Step.ForcedTrue, BoolSet.Single true, BoolSet.Empty, none, none⟩
     [[⟨0, Step.ForcedTrue, BoolSet.Single true, BoolSet.Empty, none, none⟩]]
     (fun _ => none) 3 (by decide)⟩

theorem update_decision_some_collapse (mv : MetaVote) (c : MetaVoteCounts)
    (t : Nat → Option Bool) (d : Bool) (h : mv.decision = none)
    (hdec : (MetaVote.update_meta_vote mv c t).decision = some d) :
    MetaVote.update_meta_vote mv c t =
      ⟨mv.round, mv.step, BoolSet.Single d, BoolSet.Single d, some d, some d⟩ := by
  rw [update_eq mv c t h] at hdec ⊢
  obtain ⟨est, c1, h1⟩ := cne_shape mv c (t mv.round)
  rw [h1] at hdec ⊢
  obtain ⟨bv, c2, h2⟩ := cnb_shape { mv with estimates := est } c1
  rw [h2] at hdec ⊢
  obtain ⟨av, c3, h3⟩ := cna_shape { mv with estimates := est, bin_values := bv } c2
    (({ mv with estimates := est } : MetaVote).bin_values.is_empty)
  rw [h3] at hdec ⊢
  have hXd : ({ mv with estimates := est, bin_values := bv, aux_value := av } :
      MetaVote).decision = none := h
  have h4 := cnd_of_decision_some _ c3 d hXd hdec
  rw [h4]
  rfl

/-- C2, counterexample to the claim as stated. First input: a vote with empty estimates
of three peers, a coin toss of true, and two others holding true in estimates -- not a
supermajority of others (3*2 > 2*3 fails); nevertheless the vote's own toss-seeded
estimate tips the tally kept in counts and true is added to bin_values. Second input: a
vote whose aux_value is already some false receives a decision true inherited from
another voter and its aux_value is overwritten to some true, so aux_value is not set
only once. -/
theorem claim_C2_counterexample :
    ((MetaVoteCounts.new c2_mv_a c2_others_a 3).is_supermajority
        (MetaVoteCounts.new c2_mv_a c2_others_a 3).estimates_true = false ∧
     (MetaVote.update_meta_vote c2_mv_a (MetaVoteCounts.new c2_mv_a c2_others_a 3)
        (fun _ => some true)).bin_values.contains true = true ∧
     (MetaVote.update_meta_vote c2_mv_a (MetaVoteCounts.new c2_mv_a c2_others_a 3)
        (fun _ => some true)).decision = none) ∧
    (c2_mv_b.aux_value = some false ∧
     (MetaVote.update_meta_vote c2_mv_b (MetaVoteCounts.new c2_mv_b c2_others_b 4)
        (fun _ => none)).aux_value = some true) := by
  exact ⟨⟨by decide, by decide, by decide⟩, by decide, by decide⟩

/-- C2 (amended): for an undecided MetaVote, when the update reaches no decision, a value
b belongs to the new bin_values exactly when it was already there or the estimate tally
after the estimate phase (others' matching votes plus this vote's own newly added
estimate) is a supermajority for b; and the new aux_value is the old one if it was set,
otherwise it is set exactly when bin_values was empty before the update, to b if the new
bin_values is {b} and to true if it is {true,false}. When the update reaches decision d,
bin_values collapses to {d} and aux_value is overwritten to some d. -/
theorem claim_C2_amended (mv : MetaVote) (others : List (List MetaVote))
    (tosses : Nat → Option Bool) (total : Nat) (h : mv.decision = none) :
    ((MetaVote.update_meta_vote mv (MetaVoteCounts.new mv others total) tosses).decision =
        none →
      (∀ b, (MetaVote.update_meta_vote mv (MetaVoteCounts.new mv others total)
            tosses).bin_values.contains b =
        (mv.bin_values.contains b ||
          (b && (MetaVote.calculate_new_estimates mv (MetaVoteCounts.new mv others total)
              (tosses mv.round)).2.is_supermajority
              (MetaVote.calculate_new_estimates mv (MetaVoteCounts.new mv others total)
                (tosses mv.round)).2.estimates_true) ||
          (!b && (MetaVote.calculate_new_estimates mv (MetaVoteCounts.new mv others total)
              (tosses mv.round)).2.is_supermajority
              (MetaVote.calculate_new_estimates mv (MetaVoteCounts.new mv others total)
                (tosses mv.round)).2.estimates_false))) ∧
      (MetaVote.update_meta_vote mv (MetaVoteCounts.new mv others total) tosses).aux_value =
        (if mv.aux_value.isSome then mv.aux_value
         else if mv.bin_values.is_empty then
           (if (MetaVote.calculate_new_bin_values
                (MetaVote.calculate_new_estimates mv (MetaVoteCounts.new mv others total)
                  (tosses mv.round)).1
                (MetaVote.calculate_new_estimates mv (MetaVoteCounts.new mv others total)
                  (tosses mv.round)).2).1.bin_values.len = 1 then
              some ((MetaVote.calculate_new_bin_values
                (MetaVote.calculate_new_estimates mv (MetaVoteCounts.new mv others total)
                  (tosses mv.round)).1
                (MetaVote.calculate_new_estimates mv (MetaVoteCounts.new mv others total)
                  (tosses mv.round)).2).1.bin_values.contains true)
            else if (MetaVote.calculate_new_bin_values
                (MetaVote.calculate_new_estimates mv (MetaVoteCounts.new mv others total)
                  (tosses mv.round)).1
                (MetaVote.calculate_new_estimates mv (MetaVoteCounts.new mv others total)
                  (tosses mv.round)).2).1.bin_values.len = 2 then some true
            else none)
         else none)) ∧
    (∀ d, (MetaVote.update_meta_vote mv (MetaVoteCounts.new mv others total)
          tosses).decision = some d →
      (MetaVote.update_meta_vote mv (MetaVoteCounts.new mv others total)
        tosses).bin_values = BoolSet.Single d ∧
      (MetaVote.update_meta_vote mv (MetaVoteCounts.new mv others total)
        tosses).aux_value = some d) := by
  have hu := update_eq mv (MetaVoteCounts.new mv others total) tosses h
  constructor
  · intro hdec
    rw [hu] at hdec
    have h3 := cnd_of_decision_none _ _ hdec
    constructor
    · intro b
      rw [hu, h3]
      rw [(cna_preserves _ _ _).2.2.2.1]
      rw [cnb_bin_values_contains]
      rw [(cne_preserves mv _ _).2.2.1]
    · rw [hu, h3]
      rw [cna_aux_value]
      rw [(cnb_preserves _ _).2.2.2.1]
      rw [(cne_preserves _ _ _).2.2.2.1]
      rw [(cne_preserves _ _ _).2.2.1]
  · intro d hdec
    have h4 := update_decision_some_collapse mv (MetaVoteCounts.new mv others total)
      tosses d h hdec
    rw [h4]
    exact ⟨rfl, rfl⟩

/-- C2 amended claim witness at the same concrete input as the first counterexample
part: an undecided vote of three peers with two others holding true in estimates. -/
theorem claim_C2_amended_witness :
    c2_mv_a.decision = none ∧
    (((MetaVote.update_meta_vote c2_mv_a (MetaVoteCounts.new c2_mv_a c2_others_a 3)
          (fun _ => some true)).decision = none →
      (∀ b, (MetaVote.update_meta_vote c2_mv_a (MetaVoteCounts.new c2_mv_a c2_others_a 3)
            (fun _ => some true)).bin_values.contains b =
        (c2_mv_a.bin_values.contains b ||
          (b && (MetaVote.calculate_new_estimates c2_mv_a
              (MetaVoteCounts.new c2_mv_a c2_others_a 3)
              ((fun _ => some true) c2_mv_a.round)).2.is_supermajority
              (MetaVote.calculate_new_estimates c2_mv_a
                (MetaVoteCounts.new c2_mv_a c2_others_a 3)
                ((fun _ => some true) c2_mv_a.round)).2.estimates_true) ||
          (!b && (MetaVote.calculate_new_estimates c2_mv_a
              (MetaVoteCounts.new c2_mv_a c2_others_a 3)
              ((fun _ => some true) c2_mv_a.round)).2.is_supermajority
              (MetaVote.calculate_new_estimates c2_mv_a
                (MetaVoteCounts.new c2_mv_a c2_others_a 3)
                ((fun _ => some true) c2_mv_a.round)).2.estimates_false))) ∧
      (MetaVote.update_meta_vote c2_mv_a (MetaVoteCounts.new c2_mv_a c2_others_a 3)
          (fun _ => some true)).aux_value =
        (if c2_mv_a.aux_value.isSome then c2_mv_a.aux_value
         else if c2_mv_a.bin_values.is_empty then
           (if (MetaVote.calculate_new_bin_values
                (MetaVote.calculate_new_estimates c2_mv_a
                  (MetaVoteCounts.new c2_mv_a c2_others_a 3)
                  ((fun _ => some true) c2_mv_a.round)).1
                (MetaVote.calculate_new_estimates c2_mv_a
                  (MetaVoteCounts.new c2_mv_a c2_others_a 3)
                  ((fun _ => some true) c2_mv_a.round)).2).1.bin_values.len = 1 then
              some ((MetaVote.calculate_new_bin_values
                (MetaVote.calculate_new_estimates c2_mv_a
                  (MetaVoteCounts.new c2_mv_a c2_others_a 3)
                  ((fun _ => some true) c2_mv_a.round)).1
                (MetaVote.calculate_new_estimates c2_mv_a
                  (MetaVoteCounts.new c2_mv_a c2_others_a 3)
                  ((fun _ => some true) c2_mv_a.round)).2).1.bin_values.contains true)
            else if (MetaVote.calculate_new_bin_values
                (MetaVote.calculate_new_estimates c2_mv_a
                  (MetaVoteCounts.new c2_mv_a c2_others_a 3)
                  ((fun _ => some true) c2_mv_a.round)).1
                (MetaVote.calculate_new_estimates c2_mv_a
                  (MetaVoteCounts.new c2_mv_a c2_others_a 3)
                  ((fun _ => some true) c2_mv_a.round)).2).1.bin_values.len = 2 then
              some true
            else none)
         else none)) ∧
    (∀ d, (MetaVote.update_meta_vote c2_mv_a (MetaVoteCounts.new c2_mv_a c2_others_a 3)
          (fun _ => some true)).decision = some d →
      (MetaVote.update_meta_vote c2_mv_a (MetaVoteCounts.new c2_mv_a c2_others_a 3)
        (fun _ => some true)).bin_values = BoolSet.Single d ∧
      (MetaVote.update_meta_vote c2_mv_a (MetaVoteCounts.new c2_mv_a c2_others_a 3)
        (fun _ => some true)).aux_value = some d)) :=
  ⟨by decide, claim_C2_amended c2_mv_a c2_others_a (fun _ => some true) 3 (by decide)⟩

/-- C5, counterexample to the claim as stated: an undecided vote with estimates and
bin_values both {true,false}, of three peers who all hold true and have aux true, is
driven to decision true by update_meta_vote; the update keeps the same round and step but
removes false from both estimates and bin_values (the decision collapse), so the two sets
do not only grow within a (round, step). -/
theorem claim_C5_counterexample :
    c5_mv.estimates.contains false = true ∧
    c5_mv.bin_values.contains false = true ∧
    (MetaVote.update_meta_vote c5_mv (MetaVoteCounts.new c5_mv c5_others 3)
      (fun _ => none)).round = c5_mv.round ∧
    (MetaVote.update_meta_vote c5_mv (MetaVoteCounts.new c5_mv c5_others 3)
      (fun _ => none)).step = c5_mv.step ∧
    (MetaVote.update_meta_vote c5_mv (MetaVoteCounts.new c5_mv c5_others 3)
      (fun _ => none)).estimates.contains false = false ∧
    (MetaVote.update_meta_vote c5_mv (MetaVoteCounts.new c5_mv c5_others 3)
      (fun _ => none)).bin_values.contains false = false := by
  exact ⟨by decide, by decide, by decide, by decide, by decide, by decide⟩

/-- C5 (amended): an already-decided vote is returned unchanged by update_meta_vote (so a
decision persists with the same value through every later update); an update never
changes round or step; when an update reaches no decision, estimates and bin_values only
grow; and when an update reaches decision d, estimates and bin_values collapse to the
singleton {d} and aux_value becomes some d. -/
theorem claim_C5_amended (mv : MetaVote) (c : MetaVoteCounts) (t : Nat → Option Bool) :
    (mv.decision.isSome = true → MetaVote.update_meta_vote mv c t = mv) ∧
    (MetaVote.update_meta_vote mv c t).round = mv.round ∧
    (MetaVote.update_meta_vote mv c t).step = mv.step ∧
    ((MetaVote.update_meta_vote mv c t).decision = none →
      (∀ b, mv.estimates.contains b = true →
        (MetaVote.update_meta_vote mv c t).estimates.contains b = true) ∧
      (∀ b, mv.bin_values.contains b = true →
        (MetaVote.update_meta_vote mv c t).bin_values.contains b = true)) ∧
    (∀ d, mv.decision = none →
      (MetaVote.update_meta_vote mv c t).decision = some d →
      (MetaVote.update_meta_vote mv c t).estimates = BoolSet.Single d ∧
      (MetaVote.update_meta_vote mv c t).bin_values = BoolSet.Single d ∧
      (MetaVote.update_meta_vote mv c t).aux_value = some d) := by
  refine ⟨update_of_decided mv c t, (update_round_step mv c t).1,
    (update_round_step mv c t).2, ?_, ?_⟩
  · intro hdec
    by_cases hd : mv.decision.isSome = true
    · rw [update_of_decided mv c t hd]
      exact ⟨fun b hb => hb, fun b hb => hb⟩
    · have hn : mv.decision = none := decision_none_of_not_isSome hd
      rw [update_eq mv c t hn] at hdec ⊢
      have h3 := cnd_of_decision_none _ _ hdec
      rw [h3]
      constructor
      · intro b hb
        rw [(cna_preserves _ _ _).2.2.1, (cnb_preserves _ _).2.2.1,
          cne_estimates_contains]
        rw [contains_ne_empty hb]
        simp [hb]
      · intro b hb
        rw [(cna_preserves _ _ _).2.2.2.1, cnb_bin_values_contains,
          (cne_preserves _ _ _).2.2.1]
        simp [hb]
  · intro d hn hdec
    have h4 := update_decision_some_collapse mv c t d hn hdec
    rw [h4]
    exact ⟨rfl, rfl, rfl⟩

/-- C5 amended claim witness at the concrete input of the counterexample: the decided
update collapses both sets to {true}. -/
theorem claim_C5_amended_witness :
    c5_mv.decision = none ∧
    (MetaVote.update_meta_vote c5_mv (MetaVoteCounts.new c5_mv c5_others 3)
      (fun _ => none)).decision = some true ∧
    ((MetaVote.update_meta_vote c5_mv (MetaVoteCounts.new c5_mv c5_others 3)
        (fun _ => none)).estimates = BoolSet.Single true ∧
     (MetaVote.update_meta_vote c5_mv (MetaVoteCounts.new c5_mv c5_others 3)
        (fun _ => none)).bin_values = BoolSet.Single true ∧
     (MetaVote.update_meta_vote c5_mv (MetaVoteCounts.new c5_mv c5_others 3)
        (fun _ => none)).aux_value = some true) :=
  ⟨by decide, by decide,
   (claim_C5_amended c5_mv (MetaVoteCounts.new c5_mv c5_others 3)
     (fun _ => none)).2.2.2.2 true (by decide) (by decide)⟩

theorem increase_step_decision (p : MetaVote) (c : MetaVoteCounts) (t : Option Bool) :
    (MetaVote.increase_step p c t).decision = p.decision := by
  simp only [MetaVote.increase_step]
  cases hs : p.step <;> simp only [hs] <;> (repeat' split) <;> (try cases t) <;> simp_all

theorem next_meta_vote_none_of_not_superm (p : MetaVote) (others : List (List MetaVote))
    (tosses : Nat → Option Bool) (n : Nat)
    (h : (MetaVoteCounts.new p others n).is_supermajority
      (MetaVoteCounts.new p others n).aux_values_set = false) :
    MetaVote.next_meta_vote (some p) others tosses n = none := by
  unfold MetaVote.next_meta_vote
  by_cases hd : p.decision.isSome = true
  · simp [hd]
  · simp [hd, h]

theorem nextLoopF_nil_of_none {others : List (List MetaVote)} {tosses : Nat → Option Bool}
    {n : Nat} {last : MetaVote} (fuel : Nat)
    (h : MetaVote.next_meta_vote (some last) others tosses n = none) :
    MetaVote.nextLoopF others tosses n fuel last = [] := by
  cases fuel with
  | zero => rfl
  | succ k => simp [MetaVote.nextLoopF, h]

theorem printLoopF_nil_of_none {others : List (List MetaVote)} {tosses : Nat → Option Bool}
    {n : Nat} {last : MetaVote} (fuel : Nat)
    (h : MetaVote.next_meta_vote (some last) others tosses n = none) :
    MetaVote.printLoopF others tosses n fuel last = [] := by
  cases fuel with
  | zero => rfl
  | succ k => simp [MetaVote.printLoopF, MetaVote.next_meta_vote_print, h]

theorem nextLoopF_decision_none (others : List (List MetaVote)) (tosses : Nat → Option Bool)
    (n : Nat) :
    ∀ fuel last v, v ∈ MetaVote.nextLoopF others tosses n fuel last → v.decision = none := by
  intro fuel
  induction fuel with
  | zero =>
    intro last v hv
    simp [MetaVote.nextLoopF] at hv
  | succ g ih =>
    intro last v hv
    simp only [MetaVote.nextLoopF] at hv
    cases hnv : MetaVote.next_meta_vote (some last) others tosses n with
    | none => rw [hnv] at hv; simp at hv
    | some w =>
      rw [hnv] at hv
      simp only [List.mem_cons] at hv
      rcases hv with rfl | hv
      · obtain ⟨hpd, -, hw⟩ := next_meta_vote_some hnv
        rw [hw, increase_step_decision]
        exact hpd
      · exact ih w v hv

theorem next_eq_match (parent : List MetaVote) (others : List (List MetaVote))
    (tosses : Nat → Option Bool) (total : Nat) :
    MetaVote.next parent others tosses total =
      (match (MetaVote.updateForPhase parent others tosses total).getLast? with
       | none => MetaVote.updateForPhase parent others tosses total
       | some last => MetaVote.updateForPhase parent others tosses total ++
           MetaVote.nextLoop others tosses total last) := rfl

theorem next_print_eq_match (parent : List MetaVote) (others : List (List MetaVote))
    (tosses : Nat → Option Bool) (total : Nat) :
    MetaVote.next_print parent others tosses total =
      (match (MetaVote.updateForPhase parent others tosses total).getLast? with
       | none => MetaVote.updateForPhase parent others tosses total
       | some last => MetaVote.updateForPhase parent others tosses total ++
           MetaVote.printLoop others tosses total last) := rfl

theorem updateForPhase_prefix_undecided (others : List (List MetaVote))
    (tosses : Nat → Option Bool) (n : Nat) :
    ∀ (parent : List MetaVote) (i : Nat) (v : MetaVote),
      i + 1 < (MetaVote.updateForPhase parent others tosses n).length →
      (MetaVote.updateForPhase parent others tosses n)[i]? = some v →
      v.decision = none := by
  intro parent
  induction parent with
  | nil =>
    intro i v hi hv
    simp [MetaVote.updateForPhase] at hi
  | cons w rest ih =>
    intro i v hi hv
    simp only [MetaVote.updateForPhase] at hi hv
    by_cases hd : (MetaVote.update_meta_vote w (MetaVoteCounts.new w others n)
        tosses).decision.isSome = true
    · simp only [hd, if_true] at hi
      simp [List.length] at hi
    · simp only [hd, Bool.false_eq_true, if_false] at hi hv
      cases i with
      | zero =>
        simp only [List.getElem?_cons_zero, Option.some_inj] at hv
        rw [← hv]
        exact decision_none_of_not_isSome hd
      | succ j =>
        simp only [List.getElem?_cons_succ] at hv
        simp only [List.length_cons] at hi
        exact ih j v (by omega) hv

theorem next_undecided (parent : List MetaVote) (others : List (List MetaVote))
    (tosses : Nat → Option Bool) (total : Nat) :
    ∀ (i : Nat) (v : MetaVote),
      i + 1 < (MetaVote.next parent others tosses total).length →
      (MetaVote.next parent others tosses total)[i]? = some v →
      v.decision = none := by
  intro i v hi hv
  rw [next_eq_match] at hi hv
  cases hfp : (MetaVote.updateForPhase parent others tosses total).getLast? with
  | none =>
    simp only [hfp] at hi hv
    have hnil : MetaVote.updateForPhase parent others tosses total = [] :=
      List.getLast?_eq_none_iff.mp hfp
    rw [hnil] at hi
    simp at hi
  | some last =>
    simp only [hfp] at hi hv
    rcases lt_trichotomy (i + 1)
      (MetaVote.updateForPhase parent others tosses total).length with h1 | h1 | h1
    · rw [List.getElem?_append_left (by omega)] at hv
      exact updateForPhase_prefix_undecided others tosses total parent i v h1 hv
    · have hlen : i < (MetaVote.updateForPhase parent others tosses total).length := by omega
      rw [List.getElem?_append_left hlen] at hv
      have hloop : (MetaVote.nextLoop others tosses total last).length ≠ 0 := by
        simp only [List.length_append] at hi
        omega
      have hsome : ∃ w, MetaVote.next_meta_vote (some last) others tosses total = some w := by
        cases hnv : MetaVote.next_meta_vote (some last) others tosses total with
        | none =>
          have hnil : MetaVote.nextLoop others tosses total last = [] := by
            unfold MetaVote.nextLoop
            exact nextLoopF_nil_of_none _ hnv
          rw [hnil] at hloop
          simp at hloop
        | some w => exact ⟨w, rfl⟩
      obtain ⟨w, hw⟩ := hsome
      obtain ⟨hlast, -, -⟩ := next_meta_vote_some hw
      have hgl : (MetaVote.updateForPhase parent others tosses total)[i]? = some last := by
        rw [← hfp, List.getLast?_eq_getElem?]
        congr 1
        omega
      rw [hgl, Option.some_inj] at hv
      rw [← hv]
      exact hlast
    · rw [List.getElem?_append_right (by omega)] at hv
      have hmem : v ∈ MetaVote.nextLoop others tosses total last := by
        have := List.getElem?_eq_some_iff.mp hv
        obtain ⟨hb, hget⟩ := this
        rw [← hget]
        exact List.getElem_mem hb
      exact nextLoopF_decision_none others tosses total _ last v hmem

/-- C3: a next MetaVote is produced by next_meta_vote (and hence appended by the while
loop of next) only when the parent is undecided and a supermajority of the others' aux
values are set, in which case it is the step advancement of the parent; and increase_step
realises exactly the stated transition rules: GenuineFlip to ForcedTrue increments the
round and takes estimates {true} on supermajority aux true, {false} on supermajority aux
false, the coin toss singleton when available, and the empty set otherwise; ForcedTrue to
ForcedFalse and ForcedFalse to GenuineFlip follow the forced rules, keeping the round and
clearing bin_values and aux_value. -/
theorem claim_C3 (p : MetaVote) (others : List (List MetaVote)) (tosses : Nat → Option Bool)
    (total : Nat) :
    (∀ v, MetaVote.next_meta_vote (some p) others tosses total = some v →
      p.decision = none ∧
      (MetaVoteCounts.new p others total).is_supermajority
        (MetaVoteCounts.new p others total).aux_values_set = true ∧
      v = MetaVote.increase_step p (MetaVoteCounts.new p others total) (tosses p.round)) ∧
    (MetaVote.nextLoop others tosses total p ≠ [] →
      (MetaVoteCounts.new p others total).is_supermajority
        (MetaVoteCounts.new p others total).aux_values_set = true) ∧
    (∀ (c : MetaVoteCounts) (toss : Option Bool),
      (p.step = Step.GenuineFlip →
        (MetaVote.increase_step p c toss).round = p.round + 1 ∧
        (MetaVote.increase_step p c toss).step = Step.ForcedTrue ∧
        (MetaVote.increase_step p c toss).bin_values = BoolSet.Empty ∧
        (MetaVote.increase_step p c toss).aux_value = none ∧
        (MetaVote.increase_step p c toss).estimates =
          (if c.is_supermajority c.aux_values_true then BoolSet.Single true
           else if c.is_supermajority c.aux_values_false then BoolSet.Single false
           else match toss with
                | some t => BoolSet.Single t
                | none => BoolSet.Empty)) ∧
      (p.step = Step.ForcedTrue →
        (MetaVote.increase_step p c toss).round = p.round ∧
        (MetaVote.increase_step p c toss).step = Step.ForcedFalse ∧
        (MetaVote.increase_step p c toss).bin_values = BoolSet.Empty ∧
        (MetaVote.increase_step p c toss).aux_value = none ∧
        (MetaVote.increase_step p c toss).estimates =
          (if c.is_supermajority c.aux_values_false then BoolSet.Single false
           else if !c.is_supermajority c.aux_values_true then BoolSet.Single true
           else p.estimates)) ∧
      (p.step = Step.ForcedFalse →
        (MetaVote.increase_step p c toss).round = p.round ∧
        (MetaVote.increase_step p c toss).step = Step.GenuineFlip ∧
        (MetaVote.increase_step p c toss).bin_values = BoolSet.Empty ∧
        (MetaVote.increase_step p c toss).aux_value = none ∧
        (MetaVote.increase_step p c toss).estimates =
          (if c.is_supermajority c.aux_values_true then BoolSet.Single true
           else if !c.is_supermajority c.aux_values_false then BoolSet.Single false
           else p.estimates))) := by
  refine ⟨?_, ?_, ?_⟩
  · intro v hv
    exact next_meta_vote_some hv
  · intro hne
    by_cases hs : (MetaVoteCounts.new p others total).is_supermajority
        (MetaVoteCounts.new p others total).aux_values_set = true
    · exact hs
    · exfalso
      apply hne
      unfold MetaVote.nextLoop
      exact nextLoopF_nil_of_none _ (next_meta_vote_none_of_not_superm p others tosses total
        (by simpa using hs))
  · intro c toss
    refine ⟨?_, ?_, ?_⟩ <;>
      intro hs <;>
        simp only [MetaVote.increase_step, hs] <;>
          refine ⟨?_, ?_, ?_, ?_, ?_⟩ <;>
            (try cases toss) <;>
              (try split_ifs) <;>
                simp_all [BoolSet.from_bool]

/-- C3 witness at a concrete input: an undecided ForcedTrue vote of four peers whose
three others all have aux values set (two true, one false), which is a supermajority, so
the step advances to ForcedFalse with estimates left {true}. -/
theorem claim_C3_witness :
    (MetaVote.next_meta_vote (some c3_p) c3_others (fun _ => none) 4 =
      some (MetaVote.increase_step c3_p (MetaVoteCounts.new c3_p c3_others 4)
        ((fun _ => none) c3_p.round)) ∧
     (MetaVoteCounts.new c3_p c3_others 4).is_supermajority
       (MetaVoteCounts.new c3_p c3_others 4).aux_values_set = true) ∧
    (c3_p.decision = none ∧
     (MetaVoteCounts.new c3_p c3_others 4).is_supermajority
       (MetaVoteCounts.new c3_p c3_others 4).aux_values_set = true ∧
     MetaVote.increase_step c3_p (MetaVoteCounts.new c3_p c3_others 4)
         ((fun _ => none) c3_p.round) =
       MetaVote.increase_step c3_p (MetaVoteCounts.new c3_p c3_others 4)
         ((fun _ => none) c3_p.round)) :=
  ⟨⟨by decide, by decide⟩,
   (claim_C3 c3_p c3_others (fun _ => none) 4).1
     (MetaVote.increase_step c3_p (MetaVoteCounts.new c3_p c3_others 4)
       ((fun _ => none) c3_p.round)) (by decide)⟩

/-- C4: in every vector returned by MetaVote::next (and MetaVote::new), every element
other than the last is undecided -- equivalently, an element with decision Some(b) is the
last element and nothing is appended after it -- and updating an already-decided MetaVote
returns it unchanged. -/
theorem claim_C4 :
    (∀ (parent : List MetaVote) (others : List (List MetaVote)) (tosses : Nat → Option Bool)
       (total i : Nat) (v : MetaVote),
       i + 1 < (MetaVote.next parent others tosses total).length →
       (MetaVote.next parent others tosses total)[i]? = some v → v.decision = none) ∧
    (∀ (b : Bool) (others : List (List MetaVote)) (total i : Nat) (v : MetaVote),
       i + 1 < (MetaVote.new b others total).length →
       (MetaVote.new b others total)[i]? = some v → v.decision = none) ∧
    (∀ (mv : MetaVote) (c : MetaVoteCounts) (t : Nat → Option Bool),
       mv.decision.isSome = true → MetaVote.update_meta_vote mv c t = mv) := by
  refine ⟨?_, ?_, ?_⟩
  · intro parent others tosses total i v hi hv
    exact next_undecided parent others tosses total i v hi hv
  · intro b others total i v hi hv
    exact next_undecided
      [{ MetaVote.initial with estimates := BoolSet.from_bool b }] others
      (fun _ => none) total i v hi hv
  · exact update_of_decided

/-- C4 witness at a concrete input: the two-element vector produced by next on the C10
fixture; its first element is undecided. -/
theorem claim_C4_witness :
    (0 + 1 < (MetaVote.next c10_parent c10_others (fun _ => none) 4).length ∧
     (MetaVote.next c10_parent c10_others (fun _ => none) 4)[0]? =
       some ⟨0, Step.ForcedTrue, BoolSet.Single true, BoolSet.Single true, some true,
         none⟩) ∧
    (⟨0, Step.ForcedTrue, BoolSet.Single true, BoolSet.Single true, some true, none⟩ :
      MetaVote).decision = none :=
  ⟨⟨by decide, by decide⟩,
   claim_C4.1 c10_parent c10_others (fun _ => none) 4 0
     ⟨0, Step.ForcedTrue, BoolSet.Single true, BoolSet.Single true, some true, none⟩
     (by decide) (by decide)⟩

/-- C10, counterexample to the claim as stated: on a concrete parent vector, three other
voters of four peers and no coin tosses, next appends the step-advanced vote directly
while next_print updates it before appending, and the resulting vectors differ (the
appended ForcedFalse vote gains an extra estimate, a bin value and an aux value in the
print variant). -/
theorem claim_C10_counterexample :
    MetaVote.next_print c10_parent c10_others (fun _ => none) 4 ≠
      MetaVote.next c10_parent c10_others (fun _ => none) 4 := by
  decide

/-- C10 (amended): next_print applies update_meta_vote to each step-advanced vote before
appending it, and in general this changes the result, so next_print and next can return
different vectors (see the counterexample). They do agree on the whole updated-parent
prefix, and they agree entirely whenever no step advancement fires: when the parent
updates to an empty vector, or when the others' aux values set at the last updated
parent vote fall short of a supermajority. -/
theorem claim_C10_amended (parent : List MetaVote) (others : List (List MetaVote))
    (tosses : Nat → Option Bool) (total : Nat) :
    ((MetaVote.updateForPhase parent others tosses total).getLast? = none →
      MetaVote.next_print parent others tosses total =
        MetaVote.next parent others tosses total) ∧
    (∀ last, (MetaVote.updateForPhase parent others tosses total).getLast? = some last →
      (MetaVoteCounts.new last others total).is_supermajority
        (MetaVoteCounts.new last others total).aux_values_set = false →
      MetaVote.next_print parent others tosses total =
        MetaVote.next parent others tosses total) ∧
    (List.take (MetaVote.updateForPhase parent others tosses total).length
        (MetaVote.next_print parent others tosses total) =
      List.take (MetaVote.updateForPhase parent others tosses total).length
        (MetaVote.next parent others tosses total)) := by
  refine ⟨?_, ?_, ?_⟩
  · intro hfp
    rw [next_eq_match, next_print_eq_match]
    simp only [hfp]
  · intro last hfp hsup
    rw [next_eq_match, next_print_eq_match]
    simp only [hfp]
    have hnone := next_meta_vote_none_of_not_superm last others tosses total hsup
    have h1 : MetaVote.nextLoop others tosses total last = [] := by
      unfold MetaVote.nextLoop
      exact nextLoopF_nil_of_none _ hnone
    have h2 : MetaVote.printLoop others tosses total last = [] := by
      unfold MetaVote.printLoop
      exact printLoopF_nil_of_none _ hnone
    rw [h1, h2]
  · rw [next_eq_match, next_print_eq_match]
    cases hfp : (MetaVote.updateForPhase parent others tosses total).getLast? with
    | none => simp only [hfp]
    | some last =>
      simp only [hfp]
      rw [List.take_left, List.take_left]

/-- C10 amended claim witness at a concrete input: with no other voters no supermajority
of aux values can form, so next and next_print coincide. -/
theorem claim_C10_amended_witness :
    ((MetaVote.updateForPhase c10_parent [] (fun _ => none) 4).getLast? =
       some ⟨0, Step.ForcedTrue, BoolSet.Single true, BoolSet.Single true, some true,
         none⟩ ∧
     (MetaVoteCounts.new ⟨0, Step.ForcedTrue, BoolSet.Single true, BoolSet.Single true,
        some true, none⟩ [] 4).is_supermajority
       (MetaVoteCounts.new ⟨0, Step.ForcedTrue, BoolSet.Single true, BoolSet.Single true,
          some true, none⟩ [] 4).aux_values_set = false) ∧
    MetaVote.next_print c10_parent [] (fun _ => none) 4 =
      MetaVote.next c10_parent [] (fun _ => none) 4 :=
  ⟨⟨by decide, by decide⟩,
   (claim_C10_amended c10_parent [] (fun _ => none) 4).2.1
     ⟨0, Step.ForcedTrue, BoolSet.Single true, BoolSet.Single true, some true, none⟩
     (by decide) (by decide)⟩

theorem merge_foldl_char (opla : Nat → Option Nat) (pl : List Nat) (la0 : Nat → Option Nat)
    (q : Nat) :
    (pl.foldl (fun la p =>
        match opla p with
        | some oi => fun r => if r = p then some (Nat.max ((la p).getD oi) oi) else la r
        | none => la) la0) q =
      (match opla q with
       | some oi => if q ∈ pl then some (Nat.max ((la0 q).getD oi) oi) else la0 q
       | none => la0 q) := by
  induction pl generalizing la0 with
  | nil =>
    cases opla q <;> simp
  | cons p ps ih =>
    rw [List.foldl_cons, ih]
    cases hq : opla q with
    | none =>
      cases hp : opla p with
      | none => simp
      | some oi2 =>
        by_cases hqp : q = p
        · subst hqp; rw [hq] at hp; cases hp
        · simp [hqp]
    | some oi =>
      by_cases hmem : q ∈ ps
      · have hin : q ∈ p :: ps := List.mem_cons_of_mem _ hmem
        simp only [hmem, if_true, hin]
        cases hp : opla p with
        | none => rfl
        | some oi2 =>
          by_cases hqp : q = p
          · subst hqp
            rw [hq] at hp
            injection hp with h0
            subst h0
            dsimp only
            rw [if_pos (rfl : q = q), Option.getD_some]
            refine congrArg some ?_
            have hmx : ∀ x y : Nat, Nat.max x y = if x ≤ y then y else x := fun x y => rfl
            simp only [hmx]
            split_ifs <;> omega
          · simp [hqp]
      · simp only [hmem, if_false]
        cases hp : opla p with
        | none =>
          by_cases hqp : q = p
          · subst hqp; rw [hq] at hp; cases hp
          · have hout : q ∉ p :: ps := by simp [hqp, hmem]
            simp [hout]
        | some oi2 =>
          by_cases hqp : q = p
          · subst hqp
            rw [hq] at hp
            injection hp with h0
            subst h0
            have hin : q ∈ q :: ps := List.mem_cons_self q ps
            simp [hin]
          · have hout : q ∉ p :: ps := by simp [hqp, hmem]
            simp [hout, hqp]

/-- C6: index_and_last_ancestors gives an initial event (no self parent) index 0 and the
singleton map creator -> 0; for a non-initial event whose self parent S is present, the
index is S.index + 1 and the last ancestors start from S's, are merged (when an other
parent O is present) by taking, for each peer p of the known peer list with an entry in
O's map, the maximum of the existing entry and O's entry, and finally map the creator to
the new index. -/
theorem claim_C6 (content : Content) (events : Nat → Option Event) (peer_list : List Nat) :
    (content.self_parent = none →
      Event.index_and_last_ancestors content events peer_list =
        Except.ok (0, fun p => if p = content.creator then some 0 else none)) ∧
    (∀ sph S, content.self_parent = some sph → events sph = some S →
      (content.other_parent = none →
        Event.index_and_last_ancestors content events peer_list =
          Except.ok (S.index + 1,
            fun p => if p = content.creator then some (S.index + 1)
                     else S.last_ancestors p)) ∧
      (∀ oph O, content.other_parent = some oph → events oph = some O →
        ∃ la, Event.index_and_last_ancestors content events peer_list =
            Except.ok (S.index + 1, la) ∧
          ∀ p, la p =
            (if p = content.creator then some (S.index + 1)
             else match O.last_ancestors p with
                  | some oi =>
                    if p ∈ peer_list then
                      some (Nat.max ((S.last_ancestors p).getD oi) oi)
                    else S.last_ancestors p
                  | none => S.last_ancestors p))) := by
  constructor
  · intro hsp
    unfold Event.index_and_last_ancestors
    simp only [hsp]
  · intro sph S hsp hS
    constructor
    · intro hop
      unfold Event.index_and_last_ancestors
      simp only [hsp, hS, hop]
    · intro oph O hop hO
      unfold Event.index_and_last_ancestors
      simp only [hsp, hS, hop, hO]
      refine ⟨_, rfl, ?_⟩
      intro p
      by_cases hc : p = content.creator
      · simp [hc]
      · simp only [hc, if_false]
        exact merge_foldl_char O.last_ancestors peer_list S.last_ancestors p

/-- C6 witness at a concrete input: a request event by peer 7 whose self parent (hash 1)
and other parent (hash 2, by peer 5) are both initial events in the graph, with peer
list [5, 7]. -/
theorem claim_C6_witness :
    (c6_content.self_parent = some 1 ∧ c6_events 1 = some c6_S ∧
     c6_content.other_parent = some 2 ∧ c6_events 2 = some c6_O) ∧
    (∃ la, Event.index_and_last_ancestors c6_content c6_events [5, 7] =
        Except.ok (c6_S.index + 1, la) ∧
      ∀ p, la p =
        (if p = c6_content.creator then some (c6_S.index + 1)
         else match c6_O.last_ancestors p with
              | some oi =>
                if p ∈ [5, 7] then
                  some (Nat.max ((c6_S.last_ancestors p).getD oi) oi)
                else c6_S.last_ancestors p
              | none => c6_S.last_ancestors p)) :=
  ⟨⟨rfl, rfl, rfl, rfl⟩,
   ((claim_C6 c6_content c6_events [5, 7]).2 1 c6_S rfl rfl).2 2 c6_O rfl rfl⟩

/-- C7: packing an event and unpacking the result against the graph and peer list it was
created from (so the signature verifies, the hash is the digest of the serialised
content and is not yet in the graph, the index and last ancestors are those computed by
index_and_last_ancestors, and the derived fields are still empty) returns exactly the
original event, hash included. -/
theorem claim_C7 (serialise : Content → Nat) (hashFn : Nat → Nat)
    (verify : Nat → Nat → Nat → Bool) (events : Nat → Option Event) (peer_list : List Nat)
    (e : Event)
    (h1 : verify e.content.creator e.signature (serialise e.content) = true)
    (h2 : e.hash = hashFn (serialise e.content))
    (h3 : events (hashFn (serialise e.content)) = none)
    (h4 : Event.index_and_last_ancestors e.content events peer_list =
      Except.ok (e.index, e.last_ancestors))
    (h5 : e.interesting_content = [])
    (h6 : e.observations = []) :
    Event.unpack serialise hashFn verify (Event.pack e) events peer_list =
      Except.ok (some e) := by
  obtain ⟨ec, es, eh, ei, ela, eint, eobs⟩ := e
  simp only at h1 h2 h3 h4 h5 h6
  subst h2 h5 h6
  unfold Event.unpack Event.pack
  simp only [h1, if_true, h3, Option.isSome_none, Bool.false_eq_true, if_false, h4]

/-- C7 witness at a concrete input: an initial event by peer 0 with the trivial
serialiser, hasher and verifier, against the empty graph. -/
theorem claim_C7_witness :
    ((fun _ _ _ => true : Nat → Nat → Nat → Bool) c7_e.content.creator c7_e.signature
        ((fun _ => 0 : Content → Nat) c7_e.content) = true ∧
     c7_e.hash = (fun _ => 7 : Nat → Nat) ((fun _ => 0 : Content → Nat) c7_e.content) ∧
     (fun _ => (none : Option Event)) ((fun _ => 7 : Nat → Nat)
       ((fun _ => 0 : Content → Nat) c7_e.content)) = none ∧
     Event.index_and_last_ancestors c7_e.content (fun _ => none) [] =
       Except.ok (c7_e.index, c7_e.last_ancestors) ∧
     c7_e.interesting_content = [] ∧ c7_e.observations = []) ∧
    Event.unpack (fun _ => 0) (fun _ => 7) (fun _ _ _ => true) (Event.pack c7_e)
      (fun _ => none) [] = Except.ok (some c7_e) :=
  ⟨⟨rfl, rfl, rfl, rfl, rfl, rfl⟩,
   claim_C7 (fun _ => 0) (fun _ => 7) (fun _ _ _ => true) (fun _ => none) [] c7_e
     rfl rfl rfl rfl rfl rfl⟩

/-- C8, counterexample to the claim as stated: a packed event whose hash (7) is already
present in the graph is not rejected with a DuplicateEvent error by unpack; unpack
returns Ok(None) instead. -/
theorem claim_C8_counterexample :
    Event.unpack (fun _ => 0) (fun _ => 7) (fun _ _ _ => true) ⟨⟨0, Cause.Initial⟩, 0⟩
        (fun h => if h = 7 then some c7_e else none) [] = Except.ok none ∧
    Event.unpack (fun _ => 0) (fun _ => 7) (fun _ _ _ => true) ⟨⟨0, Cause.Initial⟩, 0⟩
        (fun h => if h = 7 then some c7_e else none) [] ≠
      Except.error Error.DuplicateEvent :=
  ⟨rfl, fun hcon => Except.noConfusion ((rfl :
    Event.unpack (fun _ => 0) (fun _ => 7) (fun _ _ _ => true) ⟨⟨0, Cause.Initial⟩, 0⟩
        (fun h => if h = 7 then some c7_e else none) [] = Except.ok none) ▸ hcon)⟩

/-- C8 (amended): unpack fails with SignatureFailure whenever the signature does not
verify, regardless of the graph (so the signature check comes first); with a valid
signature it returns Ok(None), not an error, when an event with the same hash is already
present, regardless of the parents (so the duplicate check precedes the parent checks);
with a valid signature and a fresh hash it propagates the UnknownParent error of
index_and_last_ancestors, which errs exactly when the referenced self parent, or the
referenced other parent of an event whose self parent is present, is absent from the
graph, and UnknownParent is the only error index_and_last_ancestors produces. -/
theorem claim_C8_amended (serialise : Content → Nat) (hashFn : Nat → Nat)
    (verify : Nat → Nat → Nat → Bool) (pk : PackedEvent) (events : Nat → Option Event)
    (peer_list : List Nat) :
    (verify pk.content.creator pk.signature (serialise pk.content) = false →
      Event.unpack serialise hashFn verify pk events peer_list =
        Except.error Error.SignatureFailure) ∧
    (verify pk.content.creator pk.signature (serialise pk.content) = true →
      (events (hashFn (serialise pk.content))).isSome = true →
      Event.unpack serialise hashFn verify pk events peer_list = Except.ok none) ∧
    (verify pk.content.creator pk.signature (serialise pk.content) = true →
      events (hashFn (serialise pk.content)) = none →
      ∀ err, Event.index_and_last_ancestors pk.content events peer_list =
          Except.error err →
        Event.unpack serialise hashFn verify pk events peer_list = Except.error err) ∧
    (∀ err, Event.index_and_last_ancestors pk.content events peer_list =
        Except.error err → err = Error.UnknownParent) ∧
    (∀ sph, pk.content.self_parent = some sph → events sph = none →
      Event.index_and_last_ancestors pk.content events peer_list =
        Except.error Error.UnknownParent) ∧
    (∀ sph S oph, pk.content.self_parent = some sph → events sph = some S →
      pk.content.other_parent = some oph → events oph = none →
      Event.index_and_last_ancestors pk.content events peer_list =
        Except.error Error.UnknownParent) := by
  refine ⟨?_, ?_, ?_, ?_, ?_, ?_⟩
  · intro hv
    unfold Event.unpack
    simp [hv]
  · intro hv hdup
    unfold Event.unpack
    simp [hv, hdup]
  · intro hv hfresh err herr
    unfold Event.unpack
    simp [hv, hfresh, herr]
  · intro err herr
    unfold Event.index_and_last_ancestors at herr
    cases hsp : pk.content.self_parent with
    | none =>
      simp only [hsp] at herr
      exact Except.noConfusion herr
    | some sph =>
      simp only [hsp] at herr
      cases hS : events sph with
      | none =>
        simp only [hS] at herr
        cases herr
        rfl
      | some S =>
        simp only [hS] at herr
        cases hop : pk.content.other_parent with
        | none =>
          simp only [hop] at herr
          exact Except.noConfusion herr
        | some oph =>
          simp only [hop] at herr
          cases hO : events oph with
          | none =>
            simp only [hO] at herr
            cases herr
            rfl
          | some O =>
            simp only [hO] at herr
            exact Except.noConfusion herr
  · intro sph hsp hS
    unfold Event.index_and_last_ancestors
    simp only [hsp, hS]
  · intro sph S oph hsp hS hop hO
    unfold Event.index_and_last_ancestors
    simp only [hsp, hS, hop, hO]

/-- C8 amended claim witness at concrete inputs: a failing verifier yields
SignatureFailure, and a request referencing an absent self parent yields UnknownParent. -/
theorem claim_C8_amended_witness :
    ((fun _ _ _ => false : Nat → Nat → Nat → Bool) (⟨⟨0, Cause.Initial⟩, 0⟩ :
        PackedEvent).content.creator (⟨⟨0, Cause.Initial⟩, 0⟩ : PackedEvent).signature
        ((fun _ => 0 : Content → Nat) (⟨⟨0, Cause.Initial⟩, 0⟩ :
          PackedEvent).content) = false ∧
     Event.unpack (fun _ => 0) (fun _ => 7) (fun _ _ _ => false) ⟨⟨0, Cause.Initial⟩, 0⟩
       (fun _ => none) [] = Except.error Error.SignatureFailure) ∧
    ((⟨3, Cause.Request 1 2⟩ : Content).self_parent = some 1 ∧
     (fun _ => (none : Option Event)) 1 = none ∧
     Event.index_and_last_ancestors ⟨3, Cause.Request 1 2⟩ (fun _ => none) [] =
       Except.error Error.UnknownParent) :=
  ⟨⟨rfl,
    (claim_C8_amended (fun _ => 0) (fun _ => 7) (fun _ _ _ => false)
      ⟨⟨0, Cause.Initial⟩, 0⟩ (fun _ => none) []).1 rfl⟩,
   ⟨rfl, rfl,
    (claim_C8_amended (fun _ => 0) (fun _ => 7) (fun _ _ _ => false)
      ⟨⟨3, Cause.Request 1 2⟩, 0⟩ (fun _ => none) []).2.2.2.2.1 1 rfl rfl⟩⟩

/-- Ordering.then is not gt iff the first comparison is lt, or eq with the second not gt. -/
theorem then_ne_gt (o1 o2 : Ordering) :
    (o1.then o2 ≠ Ordering.gt) ↔
      (o1 = Ordering.lt ∨ (o1 = Ordering.eq ∧ o2 ≠ Ordering.gt)) := by
  cases o1 <;> simp [Ordering.then]

/-- Ordering.then with eq on the right is the left comparison. -/
theorem then_eq_rightSelf (o : Ordering) : o.then Ordering.eq = o := by
  cases o <;> rfl

/-- Ordering.then with lt on the left is lt. -/
theorem lt_then (o : Ordering) : Ordering.lt.then o = Ordering.lt := rfl

/-- Ordering.then with eq on the left is the right comparison. -/
theorem eq_then (o : Ordering) : Ordering.eq.then o = o := rfl

/-- Ordering.then with gt on the left is gt. -/
theorem gt_then (o : Ordering) : Ordering.gt.then o = Ordering.gt := rfl

/-- Ordering.then is associative. -/
theorem then_assoc2 (o1 o2 o3 : Ordering) :
    (o1.then o2).then o3 = o1.then (o2.then o3) := by
  cases o1 <;> rfl

/-- A lexicographic chain of three natural-number comparisons is not gt iff the
corresponding lexicographic inequality holds. -/
theorem tripleLe_iff (a1 a2 a3 b1 b2 b3 : Nat) :
    ((compare a1 b1).then ((compare a2 b2).then (compare a3 b3)) ≠ Ordering.gt) ↔
      (a1 < b1 ∨ (a1 = b1 ∧ (a2 < b2 ∨ (a2 = b2 ∧ a3 ≤ b3)))) := by
  simp only [then_ne_gt, Nat.compare_eq_lt, Nat.compare_eq_eq, Nat.compare_ne_gt]

/-- A lexicographic chain of four natural-number comparisons is not gt iff the
corresponding lexicographic inequality holds. -/
theorem quadLe_iff (a1 a2 a3 a4 b1 b2 b3 b4 : Nat) :
    ((compare a1 b1).then
        ((compare a2 b2).then ((compare a3 b3).then (compare a4 b4))) ≠ Ordering.gt) ↔
      (a1 < b1 ∨ (a1 = b1 ∧
        (a2 < b2 ∨ (a2 = b2 ∧ (a3 < b3 ∨ (a3 = b3 ∧ a4 ≤ b4)))))) := by
  simp only [then_ne_gt, Nat.compare_eq_lt, Nat.compare_eq_eq, Nat.compare_ne_gt]

/-- The derived ObservationKey Ord is the lexicographic comparison of variant tag, hash
and peer field. -/
theorem cmp_enc (a b : ObservationKey) :
    ObservationKey.cmp a b =
      (compare a.tag b.tag).then
        ((compare a.hash b.hash).then (compare a.peer b.peer)) := by
  have h00 : compare (0 : Nat) 0 = Ordering.eq := rfl
  have h01 : compare (0 : Nat) 1 = Ordering.lt := rfl
  have h10 : compare (1 : Nat) 0 = Ordering.gt := rfl
  have h11 : compare (1 : Nat) 1 = Ordering.eq := rfl
  cases a <;> cases b <;>
    simp only [ObservationKey.cmp, ObservationKey.tag, ObservationKey.hash,
      ObservationKey.peer, h00, h01, h10, h11, then_eq_rightSelf, lt_then, eq_then,
      gt_then]

/-- Two ObservationKeys agreeing on tag, hash and peer are equal. -/
theorem okKey_ext (a b : ObservationKey) (h1 : a.tag = b.tag) (h2 : a.hash = b.hash)
    (h3 : a.peer = b.peer) : a = b := by
  cases a <;> cases b
  · simp only [ObservationKey.hash] at h2
    simp only [ObservationKey.peer] at h3
    rw [h2, h3]
  · simp only [ObservationKey.tag] at h1
    exact absurd h1 (by omega)
  · simp only [ObservationKey.tag] at h1
    exact absurd h1 (by omega)
  · simp only [ObservationKey.hash] at h2
    rw [h2]

/-- The derived ObservationKey Ord compares any key equal to itself. -/
theorem cmp_self_eq (k : ObservationKey) : ObservationKey.cmp k k = Ordering.eq := by
  rw [cmp_enc, show compare k.tag k.tag = Ordering.eq from Nat.compare_eq_eq.mpr rfl,
    show compare k.hash k.hash = Ordering.eq from Nat.compare_eq_eq.mpr rfl,
    show compare k.peer k.peer = Ordering.eq from Nat.compare_eq_eq.mpr rfl]
  rfl

/-- The derived ObservationKey Ord is antisymmetric. -/
theorem cmp_antisymm (a b : ObservationKey) (h1 : ObservationKey.cmp a b ≠ Ordering.gt)
    (h2 : ObservationKey.cmp b a ≠ Ordering.gt) : a = b := by
  rw [cmp_enc, tripleLe_iff] at h1 h2
  exact okKey_ext a b (by omega) (by omega) (by omega)

/-- The Option ordering agrees with the natural-number comparison of ranks. -/
theorem optionCmp_eq_compare (x y : Option Nat) :
    optionCmp x y = compare (rkOpt x) (rkOpt y) := by
  cases x <;> cases y
  · rfl
  · rename_i b
    exact (Nat.compare_eq_lt.mpr (Nat.succ_pos b)).symm
  · rename_i a
    exact (Nat.compare_eq_gt.mpr (Nat.succ_pos a)).symm
  · rename_i a b
    show compare a b = compare (a + 1) (b + 1)
    rcases Nat.lt_trichotomy a b with h | h | h
    · rw [Nat.compare_eq_lt.mpr h]
      exact (Nat.compare_eq_lt.mpr (by omega)).symm
    · subst h
      rw [Nat.compare_eq_eq.mpr rfl]
      exact (Nat.compare_eq_eq.mpr rfl).symm
    · rw [Nat.compare_eq_gt.mpr h]
      exact (Nat.compare_eq_gt.mpr (by omega)).symm

/-- consistent_cmp as a lexicographic comparison of hash and looked-up peer rank. -/
theorem consistent_cmp_enc (pl : Nat → Option Nat) (a b : ObservationKey) :
    consistent_cmp pl a b =
      (compare a.hash b.hash).then
        (compare (rkOpt (a.peer_index.bind pl)) (rkOpt (b.peer_index.bind pl))) := by
  unfold consistent_cmp
  rw [optionCmp_eq_compare]

/-- idxKeyCmp is the lexicographic combination of the index comparison and the key
comparator. -/
theorem idxKeyCmp_eq_then (ccmp : ObservationKey → ObservationKey → Ordering)
    (a b : Nat × ObservationKey) :
    idxKeyCmp ccmp a b = (compare a.1 b.1).then (ccmp a.2 b.2) := by
  unfold idxKeyCmp
  by_cases h : a.1 = b.1
  · rw [if_pos h, h, show compare b.1 b.1 = Ordering.eq from Nat.compare_eq_eq.mpr rfl,
      eq_then]
  · rw [if_neg h]
    rcases Nat.lt_trichotomy a.1 b.1 with hlt | heq | hgt
    · rw [Nat.compare_eq_lt.mpr hlt, lt_then]
    · exact absurd heq h
    · rw [Nat.compare_eq_gt.mpr hgt, gt_then]

/-- idxKeyCmp with consistent_cmp as a chain of three natural-number comparisons. -/
theorem idxKeyCmp_cc_enc (pl : Nat → Option Nat) (a b : Nat × ObservationKey) :
    idxKeyCmp (consistent_cmp pl) a b =
      (compare a.1 b.1).then ((compare a.2.hash b.2.hash).then
        (compare (rkOpt (a.2.peer_index.bind pl)) (rkOpt (b.2.peer_index.bind pl)))) := by
  rw [idxKeyCmp_eq_then, consistent_cmp_enc]

/-- keyFlagCmp as a chain of four natural-number comparisons. -/
theorem keyFlagCmp_enc (a b : ObservationKey × Nat) :
    keyFlagCmp a b =
      (compare a.1.tag b.1.tag).then ((compare a.1.hash b.1.hash).then
        ((compare a.1.peer b.1.peer).then (compare a.2 b.2))) := by
  unfold keyFlagCmp
  rw [cmp_enc, then_assoc2, then_assoc2]

/-- The first sort relation of find_interesting_content_for_event is total. -/
theorem keyFlag_le_total (a b : AbsEvent × ObservationKey × Nat) :
    (keyFlagCmp a.2 b.2 ≠ Ordering.gt) ∨ (keyFlagCmp b.2 a.2 ≠ Ordering.gt) := by
  rw [keyFlagCmp_enc, keyFlagCmp_enc, quadLe_iff, quadLe_iff]
  omega

/-- The first sort relation of find_interesting_content_for_event is transitive. -/
theorem keyFlag_le_trans (a b c : AbsEvent × ObservationKey × Nat)
    (h1 : keyFlagCmp a.2 b.2 ≠ Ordering.gt) (h2 : keyFlagCmp b.2 c.2 ≠ Ordering.gt) :
    keyFlagCmp a.2 c.2 ≠ Ordering.gt := by
  rw [keyFlagCmp_enc, quadLe_iff] at h1 h2 ⊢
  omega

/-- The second sort relation of find_interesting_content_for_event is total. -/
theorem idxKey_le_total (pl : Nat → Option Nat) (a b : Nat × ObservationKey) :
    (idxKeyCmp (consistent_cmp pl) a b ≠ Ordering.gt) ∨
      (idxKeyCmp (consistent_cmp pl) b a ≠ Ordering.gt) := by
  rw [idxKeyCmp_cc_enc, idxKeyCmp_cc_enc, tripleLe_iff, tripleLe_iff]
  omega

/-- The second sort relation of find_interesting_content_for_event is transitive. -/
theorem idxKey_le_trans (pl : Nat → Option Nat) (a b c : Nat × ObservationKey)
    (h1 : idxKeyCmp (consistent_cmp pl) a b ≠ Ordering.gt)
    (h2 : idxKeyCmp (consistent_cmp pl) b c ≠ Ordering.gt) :
    idxKeyCmp (consistent_cmp pl) a c ≠ Ordering.gt := by
  rw [idxKeyCmp_cc_enc, tripleLe_iff] at h1 h2 ⊢
  omega

/-- The first sort relation bounds the bare key comparison. -/
theorem keyFlag_le_key (a b : ObservationKey × Nat) (h : keyFlagCmp a b ≠ Ordering.gt) :
    ObservationKey.cmp a.1 b.1 ≠ Ordering.gt := by
  rw [keyFlagCmp_enc, quadLe_iff] at h
  rw [cmp_enc, tripleLe_iff]
  omega

/-- On equal keys, a flag-1 entry compares greater than a flag-0 entry. -/
theorem keyFlag_gt_of_flag (k : ObservationKey) :
    keyFlagCmp (k, 1) (k, 0) = Ordering.gt := by
  show (ObservationKey.cmp k k).then (compare 1 0) = Ordering.gt
  rw [cmp_self_eq]
  rfl

/-- groupByPayload equation: grouping onto an empty tail grouping. -/
theorem groupByPayload_cons_nil (e0 : AbsEvent) (k0 : ObservationKey) (f0 : Nat)
    (rest : List (AbsEvent × ObservationKey × Nat)) (h : groupByPayload rest = []) :
    groupByPayload ((e0, k0, f0) :: rest) = [(k0, [e0])] := by
  simp [groupByPayload, h]

/-- groupByPayload equation: the head joins the first group when the keys agree. -/
theorem groupByPayload_cons_same (e0 : AbsEvent) (k0 : ObservationKey) (f0 : Nat)
    (rest : List (AbsEvent × ObservationKey × Nat)) (k2 : ObservationKey)
    (es2 : List AbsEvent) (gs : List (ObservationKey × List AbsEvent))
    (h : groupByPayload rest = (k2, es2) :: gs) (hk : k0 = k2) :
    groupByPayload ((e0, k0, f0) :: rest) = (k0, e0 :: es2) :: gs := by
  simp [groupByPayload, h, hk]

/-- groupByPayload equation: the head starts a fresh group when the keys differ. -/
theorem groupByPayload_cons_diff (e0 : AbsEvent) (k0 : ObservationKey) (f0 : Nat)
    (rest : List (AbsEvent × ObservationKey × Nat)) (k2 : ObservationKey)
    (es2 : List AbsEvent) (gs : List (ObservationKey × List AbsEvent))
    (h : groupByPayload rest = (k2, es2) :: gs) (hk : k0 ≠ k2) :
    groupByPayload ((e0, k0, f0) :: rest) = (k0, [e0]) :: (k2, es2) :: gs := by
  simp [groupByPayload, h, hk]

/-- The first group of a nonempty list carries the key of the first element, with a
nonempty event list. -/
theorem groupByPayload_cons_head (e0 : AbsEvent) (k0 : ObservationKey) (f0 : Nat)
    (rest : List (AbsEvent × ObservationKey × Nat)) :
    ∃ es gs, groupByPayload ((e0, k0, f0) :: rest) = (k0, es) :: gs ∧ es ≠ [] := by
  cases h : groupByPayload rest with
  | nil =>
    exact ⟨[e0], [], groupByPayload_cons_nil e0 k0 f0 rest h, by simp⟩
  | cons p gs =>
    obtain ⟨k2, es2⟩ := p
    by_cases hk : k0 = k2
    · exact ⟨e0 :: es2, gs, groupByPayload_cons_same e0 k0 f0 rest k2 es2 gs h hk, by simp⟩
    · exact ⟨[e0], (k2, es2) :: gs, groupByPayload_cons_diff e0 k0 f0 rest k2 es2 gs h hk,
        by simp⟩

/-- Every key of a group comes from some element of the list. -/
theorem groupByPayload_key_src (l : List (AbsEvent × ObservationKey × Nat))
    (k : ObservationKey) (es : List AbsEvent) (hmem : (k, es) ∈ groupByPayload l) :
    ∃ e f, (e, k, f) ∈ l := by
  induction l generalizing es with
  | nil => simp [groupByPayload] at hmem
  | cons t rest ih =>
    obtain ⟨e0, k0, f0⟩ := t
    cases h : groupByPayload rest with
    | nil =>
      rw [groupByPayload_cons_nil e0 k0 f0 rest h] at hmem
      have h2 := List.mem_singleton.mp hmem
      have hk : k = k0 := congrArg Prod.fst h2
      exact ⟨e0, f0, by rw [hk]; exact List.mem_cons_self _ _⟩
    | cons p gs =>
      obtain ⟨k2, es2⟩ := p
      by_cases hk : k0 = k2
      · rw [groupByPayload_cons_same e0 k0 f0 rest k2 es2 gs h hk] at hmem
        rcases List.mem_cons.mp hmem with h2 | h2
        · have hkk : k = k0 := congrArg Prod.fst h2
          exact ⟨e0, f0, by rw [hkk]; exact List.mem_cons_self _ _⟩
        · have h3 : (k, es) ∈ groupByPayload rest := by
            rw [h]
            exact List.mem_cons_of_mem _ h2
          obtain ⟨e, f, hef⟩ := ih es h3
          exact ⟨e, f, List.mem_cons_of_mem _ hef⟩
      · rw [groupByPayload_cons_diff e0 k0 f0 rest k2 es2 gs h hk] at hmem
        rcases List.mem_cons.mp hmem with h2 | h2
        · have hkk : k = k0 := congrArg Prod.fst h2
          exact ⟨e0, f0, by rw [hkk]; exact List.mem_cons_self _ _⟩
        · have h3 : (k, es) ∈ groupByPayload rest := by rw [h]; exact h2
          obtain ⟨e, f, hef⟩ := ih es h3
          exact ⟨e, f, List.mem_cons_of_mem _ hef⟩

/-- Every key occurring in the list heads some group. -/
theorem groupByPayload_key_complete (l : List (AbsEvent × ObservationKey × Nat))
    (e : AbsEvent) (k : ObservationKey) (f : Nat) (hmem : (e, k, f) ∈ l) :
    ∃ es, (k, es) ∈ groupByPayload l := by
  induction l with
  | nil => simp at hmem
  | cons t rest ih =>
    obtain ⟨e0, k0, f0⟩ := t
    rcases List.mem_cons.mp hmem with h2 | h2
    · have hk : k = k0 := congrArg (fun p : AbsEvent × ObservationKey × Nat => p.2.1) h2
      obtain ⟨es, gs, hg, _⟩ := groupByPayload_cons_head e0 k0 f0 rest
      exact ⟨es, by rw [hg, hk]; exact List.mem_cons_self _ _⟩
    · obtain ⟨es2, hes2⟩ := ih h2
      cases h : groupByPayload rest with
      | nil =>
        rw [h] at hes2
        simp at hes2
      | cons p gs =>
        obtain ⟨k2, esB⟩ := p
        by_cases hk : k0 = k2
        · rw [h] at hes2
          rcases List.mem_cons.mp hes2 with h3 | h3
          · have hkk : k = k2 := congrArg Prod.fst h3
            refine ⟨e0 :: esB, ?_⟩
            rw [groupByPayload_cons_same e0 k0 f0 rest k2 esB gs h hk, hkk, hk]
            exact List.mem_cons_self _ _
          · refine ⟨es2, ?_⟩
            rw [groupByPayload_cons_same e0 k0 f0 rest k2 esB gs h hk]
            exact List.mem_cons_of_mem _ h3
        · refine ⟨es2, ?_⟩
          rw [groupByPayload_cons_diff e0 k0 f0 rest k2 esB gs h hk]
          rw [h] at hes2
          exact List.mem_cons_of_mem _ hes2

/-- In a list whose keys are sorted by the derived Ord, an element carrying the key k0
that bounds every key from above has the key of the head. -/
theorem key_in_tail_eq_head (y : AbsEvent × ObservationKey × Nat)
    (rest2 : List (AbsEvent × ObservationKey × Nat)) (k0 : ObservationKey)
    (hhead : ∀ b ∈ y :: rest2, ObservationKey.cmp k0 b.2.1 ≠ Ordering.gt)
    (hpair : (y :: rest2).Pairwise
      (fun a b => ObservationKey.cmp a.2.1 b.2.1 ≠ Ordering.gt))
    (e : AbsEvent) (f : Nat) (hmem : (e, k0, f) ∈ y :: rest2) : k0 = y.2.1 := by
  rcases List.mem_cons.mp hmem with h2 | h2
  · rw [← h2]
  · have h1 : ObservationKey.cmp k0 y.2.1 ≠ Ordering.gt :=
      hhead y (List.mem_cons_self _ _)
    have h3 : ObservationKey.cmp y.2.1 k0 ≠ Ordering.gt :=
      (List.pairwise_cons.mp hpair).1 (e, k0, f) h2
    exact cmp_antisymm k0 y.2.1 h1 h3

/-- Under key-sortedness the group keys are distinct. -/
theorem groupByPayload_keys_nodup (l : List (AbsEvent × ObservationKey × Nat))
    (hs : l.Pairwise (fun a b => ObservationKey.cmp a.2.1 b.2.1 ≠ Ordering.gt)) :
    ((groupByPayload l).map Prod.fst).Nodup := by
  induction l with
  | nil => simp [groupByPayload]
  | cons t rest ih =>
    obtain ⟨e0, k0, f0⟩ := t
    have hhead := (List.pairwise_cons.mp hs).1
    have hrest := (List.pairwise_cons.mp hs).2
    cases h : groupByPayload rest with
    | nil =>
      rw [groupByPayload_cons_nil e0 k0 f0 rest h]
      simp
    | cons p gs =>
      obtain ⟨k2, es2⟩ := p
      have ihn := ih hrest
      rw [h] at ihn
      simp only [List.map_cons, List.nodup_cons] at ihn
      obtain ⟨y, rest2, hy⟩ : ∃ y rest2, rest = y :: rest2 := by
        cases rest with
        | nil => simp [groupByPayload] at h
        | cons y rest2 => exact ⟨y, rest2, rfl⟩
      have hk2y : k2 = y.2.1 := by
        obtain ⟨ey, ky, fy⟩ := y
        obtain ⟨es3, gs3, hg3, _⟩ := groupByPayload_cons_head ey ky fy rest2
        rw [hy, hg3] at h
        have := congrArg Prod.fst (List.head_eq_of_cons_eq h)
        exact this.symm
      have hmemk0 : ∀ (e : AbsEvent) (f : Nat), (e, k0, f) ∈ rest → k0 = k2 := by
        intro e f hef
        rw [hy] at hef hrest
        rw [hk2y]
        refine key_in_tail_eq_head y rest2 k0 ?_ hrest e f hef
        intro b hb
        rw [hy] at hhead
        exact hhead b hb
      by_cases hk : k0 = k2
      · rw [groupByPayload_cons_same e0 k0 f0 rest k2 es2 gs h hk]
        simp only [List.map_cons, List.nodup_cons]
        refine ⟨?_, ihn.2⟩
        rw [hk]
        exact ihn.1
      · rw [groupByPayload_cons_diff e0 k0 f0 rest k2 es2 gs h hk]
        simp only [List.map_cons, List.nodup_cons]
        refine ⟨?_, ihn⟩
        intro hmemX
        rcases List.mem_cons.mp hmemX with h4 | h4
        · exact hk h4
        · obtain ⟨pr, hpr, hpr2⟩ := List.mem_map.mp h4
          obtain ⟨kx, esx⟩ := pr
          have hkx : kx = k0 := hpr2
          rw [hkx] at hpr
          have hmemg : (k0, esx) ∈ groupByPayload rest := by
            rw [h]
            exact List.mem_cons_of_mem _ hpr
          obtain ⟨e, f, hef⟩ := groupByPayload_key_src rest k0 esx hmemg
          exact hk (hmemk0 e f hef)

/-- Under key-sortedness each group collects, in order, exactly the events of the list
entries carrying its key. -/
theorem groupByPayload_content (l : List (AbsEvent × ObservationKey × Nat))
    (hs : l.Pairwise (fun a b => ObservationKey.cmp a.2.1 b.2.1 ≠ Ordering.gt)) :
    ∀ (k : ObservationKey) (es : List AbsEvent), (k, es) ∈ groupByPayload l →
      es = (l.filter (fun t => decide (t.2.1 = k))).map (fun t => t.1) := by
  induction l with
  | nil =>
    intro k es hm
    simp [groupByPayload] at hm
  | cons t rest ih =>
    obtain ⟨e0, k0, f0⟩ := t
    have hhead := (List.pairwise_cons.mp hs).1
    have hrest := (List.pairwise_cons.mp hs).2
    intro k es hm
    cases h : groupByPayload rest with
    | nil =>
      have hrnil : rest = [] := by
        cases rest with
        | nil => rfl
        | cons y rest2 =>
          obtain ⟨ey, ky, fy⟩ := y
          obtain ⟨es3, gs3, hg3, _⟩ := groupByPayload_cons_head ey ky fy rest2
          rw [hg3] at h
          exact absurd h (by simp)
      subst hrnil
      rw [groupByPayload_cons_nil e0 k0 f0 [] h] at hm
      have h2 := List.mem_singleton.mp hm
      have hk : k = k0 := congrArg Prod.fst h2
      have hes : es = [e0] := congrArg Prod.snd h2
      rw [hes, hk]
      simp
    | cons p gs =>
      obtain ⟨k2, es2⟩ := p
      obtain ⟨y, rest2, hy⟩ : ∃ y rest2, rest = y :: rest2 := by
        cases rest with
        | nil => simp [groupByPayload] at h
        | cons y rest2 => exact ⟨y, rest2, rfl⟩
      have hk2y : k2 = y.2.1 := by
        obtain ⟨ey, ky, fy⟩ := y
        obtain ⟨es3, gs3, hg3, _⟩ := groupByPayload_cons_head ey ky fy rest2
        rw [hy, hg3] at h
        have := congrArg Prod.fst (List.head_eq_of_cons_eq h)
        exact this.symm
      have hmemk0 : ∀ (e : AbsEvent) (f : Nat), (e, k0, f) ∈ rest → k0 = k2 := by
        intro e f hef
        rw [hy] at hef
        rw [hk2y]
        refine key_in_tail_eq_head y rest2 k0 ?_ (by rw [hy] at hrest; exact hrest) e f hef
        intro b hb
        rw [hy] at hhead
        exact hhead b hb
      have hnd := groupByPayload_keys_nodup rest hrest
      rw [h] at hnd
      simp only [List.map_cons, List.nodup_cons] at hnd
      by_cases hk : k0 = k2
      · rw [groupByPayload_cons_same e0 k0 f0 rest k2 es2 gs h hk] at hm
        rcases List.mem_cons.mp hm with h2 | h2
        · have hkk : k = k0 := congrArg Prod.fst h2
          have hes : es = e0 :: es2 := congrArg Prod.snd h2
          have hes2 : es2 = (rest.filter (fun t => decide (t.2.1 = k2))).map
              (fun t => t.1) := by
            refine ih hrest k2 es2 ?_
            rw [h]
            exact List.mem_cons_self _ _
          rw [hes, hes2, hkk, hk]
          simp [List.filter_cons]
        · have h3 : (k, es) ∈ groupByPayload rest := by
            rw [h]
            exact List.mem_cons_of_mem _ h2
          have hke := ih hrest k es h3
          have hkne : k ≠ k0 := by
            intro hkk
            apply hnd.1
            have hmm : k ∈ gs.map Prod.fst := List.mem_map.mpr ⟨(k, es), h2, rfl⟩
            rw [← hk, ← hkk]
            exact hmm
          have hcond : ¬(k0 = k) := fun hh => hkne hh.symm
          rw [hke]
          simp [List.filter_cons, hcond]
      · rw [groupByPayload_cons_diff e0 k0 f0 rest k2 es2 gs h hk] at hm
        rcases List.mem_cons.mp hm with h2 | h2
        · have hkk : k = k0 := congrArg Prod.fst h2
          have hes : es = [e0] := congrArg Prod.snd h2
          have hnone : rest.filter (fun t => decide (t.2.1 = k0)) = [] := by
            refine List.filter_eq_nil_iff.mpr ?_
            intro t ht
            obtain ⟨te, tk, tf⟩ := t
            simp only [decide_eq_true_eq]
            intro htk
            rw [htk] at ht
            exact hk (hmemk0 te tf ht)
          rw [hes, hkk]
          simp [List.filter_cons, hnone]
        · have h3 : (k, es) ∈ groupByPayload rest := by rw [h]; exact h2
          have hke := ih hrest k es h3
          have hkne : k ≠ k0 := by
            intro hkk
            obtain ⟨e, f, hef⟩ := groupByPayload_key_src rest k es h3
            rw [hkk] at hef
            exact hk (hmemk0 e f hef)
          have hcond : ¬(k0 = k) := fun hh => hkne hh.symm
          rw [hke]
          simp [List.filter_cons, hcond]

/-- events_to_process contains exactly the qualifying (event, key) pairs together with
their builder-creator flag. -/
theorem events_to_process_mem (builder : AbsEvent) (unconsensused : List AbsEvent)
    (isd : AbsEvent → AbsEvent → Bool) (isa : ObservationKey → Bool)
    (t : AbsEvent × ObservationKey × Nat) :
    t ∈ events_to_process builder unconsensused isd isa ↔
      (qualifying builder unconsensused isd isa t.1 t.2.1 ∧
        t.2.2 = (if decide (t.1.creator = builder.creator) then 0 else 1)) := by
  obtain ⟨e, k, f⟩ := t
  unfold events_to_process qualifying
  rw [List.mem_filterMap]
  dsimp only
  constructor
  · rintro ⟨e2, hmem2, hsome⟩
    rw [List.mem_filter] at hmem2
    cases hpk : e2.payload_key with
    | none =>
      simp only [hpk] at hsome
      exact Option.noConfusion hsome
    | some k2 =>
      simp only [hpk] at hsome
      by_cases hia : isa k2 = true
      · rw [if_pos hia] at hsome
        exact absurd hsome (by simp)
      · rw [if_neg hia] at hsome
        have h3 := Option.some.inj hsome
        have he : e2 = e := congrArg Prod.fst h3
        have hk2 : k2 = k :=
          congrArg (fun p : AbsEvent × ObservationKey × Nat => p.2.1) h3
        have hf : (if decide (e2.creator = builder.creator) then (0 : Nat) else 1) = f :=
          congrArg (fun p : AbsEvent × ObservationKey × Nat => p.2.2) h3
        subst he
        subst hk2
        refine ⟨⟨hmem2.1, hmem2.2, hpk, ?_⟩, ?_⟩
        · simpa using hia
        · rw [← hf]
  · rintro ⟨⟨hmem, hdesc, hpk, hna⟩, hf⟩
    refine ⟨e, ?_, ?_⟩
    · rw [List.mem_filter]
      exact ⟨hmem, hdesc⟩
    · simp [hpk, hna, hf]

/-- interesting_payload_keys membership characterization. -/
theorem interesting_payload_keys_mem (builder : AbsEvent)
    (groups : List (ObservationKey × List AbsEvent)) (isi : ObservationKey → Bool)
    (p : Nat × ObservationKey) :
    p ∈ interesting_payload_keys builder groups isi ↔
      ∃ es rep, (p.2, es) ∈ groups ∧ isi p.2 = true ∧ es.head? = some rep ∧
        p.1 = (if decide (rep.creator = builder.creator) then rep.index_by_creator
          else USIZE_MAX) := by
  obtain ⟨i, k⟩ := p
  unfold interesting_payload_keys
  rw [List.mem_filterMap]
  constructor
  · rintro ⟨⟨k2, es⟩, hmem, hf⟩
    dsimp only at hf
    by_cases hii : isi k2 = true
    · rw [if_pos hii] at hf
      cases hh : es.head? with
      | none =>
        rw [hh] at hf
        simp only [Option.map] at hf
        exact Option.noConfusion hf
      | some rep =>
        rw [hh] at hf
        simp only [Option.map] at hf
        have h3 := Option.some.inj hf
        have hk2 : k2 = k := congrArg Prod.snd h3
        have hi : (if decide (rep.creator = builder.creator) then rep.index_by_creator
            else USIZE_MAX) = i := congrArg Prod.fst h3
        subst hk2
        exact ⟨es, rep, hmem, hii, hh, hi.symm⟩
    · rw [if_neg hii] at hf
      exact absurd hf (by simp)
  · rintro ⟨es, rep, hmem, hii, hh, hi⟩
    refine ⟨(k, es), hmem, ?_⟩
    dsimp only
    rw [if_pos hii, hh]
    simp only [Option.map]
    rw [← hi]

/-- Mapping a component-preserving projection over a filterMap yields a sublist of the
projections. -/
theorem filterMap_map_sublist {α β γ : Type} (f : α → Option β) (g : β → γ) (h : α → γ)
    (hfg : ∀ a b, f a = some b → g b = h a) (l : List α) :
    ((l.filterMap f).map g).Sublist (l.map h) := by
  induction l with
  | nil => simp
  | cons a l ih =>
    rw [List.filterMap_cons]
    cases hfa : f a with
    | none =>
      dsimp only
      rw [List.map_cons]
      exact ih.cons _
    | some b =>
      dsimp only
      rw [List.map_cons, List.map_cons, hfg a b hfa]
      exact List.Sublist.cons₂ _ ih

/-- The keys of interesting_payload_keys form a sublist of the group keys. -/
theorem interesting_payload_keys_keys_sublist (builder : AbsEvent)
    (groups : List (ObservationKey × List AbsEvent)) (isi : ObservationKey → Bool) :
    ((interesting_payload_keys builder groups isi).map (fun p => p.2)).Sublist
      (groups.map (fun g => g.1)) := by
  unfold interesting_payload_keys
  refine filterMap_map_sublist _ _ _ ?_ groups
  intro a b hab
  by_cases hii : isi a.1 = true
  · rw [if_pos hii] at hab
    cases hh : a.2.head? with
    | none =>
      rw [hh] at hab
      simp only [Option.map] at hab
      exact Option.noConfusion hab
    | some rep =>
      rw [hh] at hab
      simp only [Option.map] at hab
      have h3 := Option.some.inj hab
      exact (congrArg Prod.snd h3).symm
  · rw [if_neg hii] at hab
    exact Option.noConfusion hab

/-- The representative (first event) of each group of find_interesting_content_for_event
qualifies for its key, and is an event of the builder creator whenever any qualifying
event of that key has the builder creator. -/
theorem rep_facts (builder : AbsEvent) (unconsensused : List AbsEvent)
    (isd : AbsEvent → AbsEvent → Bool) (isa : ObservationKey → Bool)
    (k : ObservationKey) (es : List AbsEvent) (rep : AbsEvent)
    (hg : (k, es) ∈ groupByPayload (List.insertionSort
      (fun a b : AbsEvent × ObservationKey × Nat => keyFlagCmp a.2 b.2 ≠ Ordering.gt)
      (events_to_process builder unconsensused isd isa)))
    (hh : es.head? = some rep) :
    qualifying builder unconsensused isd isa rep k ∧
      (∀ e, qualifying builder unconsensused isd isa e k →
        e.creator = builder.creator → rep.creator = builder.creator) := by
  haveI hTot : IsTotal (AbsEvent × ObservationKey × Nat)
      (fun a b => keyFlagCmp a.2 b.2 ≠ Ordering.gt) := ⟨keyFlag_le_total⟩
  haveI hTr : IsTrans (AbsEvent × ObservationKey × Nat)
      (fun a b => keyFlagCmp a.2 b.2 ≠ Ordering.gt) := ⟨keyFlag_le_trans⟩
  set s1 := List.insertionSort
    (fun a b : AbsEvent × ObservationKey × Nat => keyFlagCmp a.2 b.2 ≠ Ordering.gt)
    (events_to_process builder unconsensused isd isa) with hs1def
  have hsorted : s1.Pairwise (fun a b => keyFlagCmp a.2 b.2 ≠ Ordering.gt) :=
    List.sorted_insertionSort _ _
  have hskeys : s1.Pairwise (fun a b => ObservationKey.cmp a.2.1 b.2.1 ≠ Ordering.gt) :=
    hsorted.imp (fun h => keyFlag_le_key _ _ h)
  have hchar := groupByPayload_content s1 hskeys k es hg
  have hfil : ∃ t0 ftail, s1.filter (fun t => decide (t.2.1 = k)) = t0 :: ftail ∧
      t0.1 = rep := by
    rw [hchar, List.head?_map] at hh
    cases hf0 : (s1.filter (fun t => decide (t.2.1 = k))).head? with
    | none =>
      rw [hf0] at hh
      simp only [Option.map] at hh
      exact Option.noConfusion hh
    | some t0 =>
      rw [hf0] at hh
      simp only [Option.map] at hh
      have ht0 : t0.1 = rep := Option.some.inj hh
      obtain ⟨l2, hl2⟩ : ∃ l2, s1.filter (fun t => decide (t.2.1 = k)) = t0 :: l2 := by
        cases hc : s1.filter (fun t => decide (t.2.1 = k)) with
        | nil =>
          rw [hc] at hf0
          simp at hf0
        | cons a l2 =>
          rw [hc] at hf0
          have ha : a = t0 := by simpa using hf0
          exact ⟨l2, by rw [ha]⟩
      exact ⟨t0, l2, hl2, ht0⟩
  obtain ⟨t0, ftail, hfeq, ht0rep⟩ := hfil
  have ht0f : t0 ∈ s1.filter (fun t => decide (t.2.1 = k)) := by
    rw [hfeq]
    exact List.mem_cons_self _ _
  have ht0s1 : t0 ∈ s1 := List.mem_of_mem_filter ht0f
  have ht0k : t0.2.1 = k := by
    have hp := List.of_mem_filter ht0f
    simpa using hp
  have ht0etp : t0 ∈ events_to_process builder unconsensused isd isa :=
    (List.mem_insertionSort _).mp ht0s1
  have ht0q := (events_to_process_mem builder unconsensused isd isa t0).mp ht0etp
  constructor
  · rw [← ht0k, ← ht0rep]
    exact ht0q.1
  · intro e he hec
    by_contra hno
    have hflag : t0.2.2 = 1 := by
      rw [ht0q.2, ht0rep]
      simp [hno]
    have hetp : (e, k, (0 : Nat)) ∈ events_to_process builder unconsensused isd isa := by
      refine (events_to_process_mem builder unconsensused isd isa (e, k, 0)).mpr ⟨he, ?_⟩
      simp [hec]
    have hes1 : (e, k, (0 : Nat)) ∈ s1 := (List.mem_insertionSort _).mpr hetp
    have hef : (e, k, (0 : Nat)) ∈ s1.filter (fun t => decide (t.2.1 = k)) :=
      List.mem_filter.mpr ⟨hes1, by simp⟩
    rw [hfeq] at hef
    rcases List.mem_cons.mp hef with h2 | h2
    · apply hno
      rw [← ht0rep, ← h2]
      exact hec
    · have hpf : (s1.filter (fun t => decide (t.2.1 = k))).Pairwise
          (fun a b => keyFlagCmp a.2 b.2 ≠ Ordering.gt) :=
        hsorted.sublist (List.filter_sublist _)
      rw [hfeq] at hpf
      have hr1 := (List.pairwise_cons.mp hpf).1 (e, k, 0) h2
      apply hr1
      have ht02 : t0.2 = (k, 1) := Prod.ext_iff.mpr ⟨ht0k, hflag⟩
      rw [ht02]
      exact keyFlag_gt_of_flag k

/-- find_interesting_content_for_event as the composition of its pipeline stages. -/
theorem find_interesting_eq (builder : AbsEvent) (unconsensused : List AbsEvent)
    (ccmp : ObservationKey → ObservationKey → Ordering)
    (isd : AbsEvent → AbsEvent → Bool) (isa : ObservationKey → Bool)
    (isi : ObservationKey → Bool) :
    find_interesting_content_for_event builder unconsensused ccmp isd isa isi =
      (List.insertionSort
        (fun a b : Nat × ObservationKey => idxKeyCmp ccmp a b ≠ Ordering.gt)
        (interesting_payload_keys builder
          (groupByPayload (List.insertionSort
            (fun a b : AbsEvent × ObservationKey × Nat =>
              keyFlagCmp a.2 b.2 ≠ Ordering.gt)
            (events_to_process builder unconsensused isd isa))) isi)).map
        (fun p => p.2) := rfl

/-- C9: find_interesting_content_for_event returns exactly the payload keys of
unconsensused events the builder descends from that are not already interesting content
and whose payload is interesting, without duplicates, ordered with the keys the builder
creator voted for first in ascending index-by-creator order, followed by the remaining
keys in consistent_cmp order. Stated under the invariants that event indexes are below
usize::MAX and that the builder creator has at most one qualifying event per payload. -/
theorem claim_C9 (builder : AbsEvent) (unconsensused : List AbsEvent)
    (pl : Nat → Option Nat) (isd : AbsEvent → AbsEvent → Bool)
    (isa : ObservationKey → Bool) (isi : ObservationKey → Bool)
    (hidx : ∀ e ∈ unconsensused, e.index_by_creator < USIZE_MAX)
    (huniq : ∀ e ∈ unconsensused, ∀ f ∈ unconsensused,
      (isd builder e = true ∧ isd builder f = true ∧
        e.creator = builder.creator ∧ f.creator = builder.creator ∧
        e.payload_key = f.payload_key ∧ e.payload_key.isSome = true) → e = f) :
    (∀ k, k ∈ find_interesting_content_for_event builder unconsensused
        (consistent_cmp pl) isd isa isi ↔
      ((∃ e, qualifying builder unconsensused isd isa e k) ∧ isi k = true)) ∧
    (find_interesting_content_for_event builder unconsensused
        (consistent_cmp pl) isd isa isi).Nodup ∧
    (find_interesting_content_for_event builder unconsensused
        (consistent_cmp pl) isd isa isi).Pairwise (fun k1 k2 =>
      (∀ e f, qualifying builder unconsensused isd isa e k1 →
        e.creator = builder.creator →
        qualifying builder unconsensused isd isa f k2 →
        f.creator = builder.creator → e.index_by_creator ≤ f.index_by_creator) ∧
      (¬ creator_voted builder unconsensused isd isa k1 →
        ¬ creator_voted builder unconsensused isd isa k2 ∧
          consistent_cmp pl k1 k2 ≠ Ordering.gt)) := by
  haveI hTot : IsTotal (AbsEvent × ObservationKey × Nat)
      (fun a b => keyFlagCmp a.2 b.2 ≠ Ordering.gt) := ⟨keyFlag_le_total⟩
  haveI hTr : IsTrans (AbsEvent × ObservationKey × Nat)
      (fun a b => keyFlagCmp a.2 b.2 ≠ Ordering.gt) := ⟨keyFlag_le_trans⟩
  haveI hTot2 : IsTotal (Nat × ObservationKey)
      (fun a b => idxKeyCmp (consistent_cmp pl) a b ≠ Ordering.gt) :=
    ⟨idxKey_le_total pl⟩
  haveI hTr2 : IsTrans (Nat × ObservationKey)
      (fun a b => idxKeyCmp (consistent_cmp pl) a b ≠ Ordering.gt) :=
    ⟨idxKey_le_trans pl⟩
  rw [find_interesting_eq]
  set s1 := List.insertionSort
    (fun a b : AbsEvent × ObservationKey × Nat => keyFlagCmp a.2 b.2 ≠ Ordering.gt)
    (events_to_process builder unconsensused isd isa) with hs1def
  set groups := groupByPayload s1 with hgroupsdef
  set ipk := interesting_payload_keys builder groups isi with hipkdef
  set s2 := List.insertionSort
    (fun a b : Nat × ObservationKey => idxKeyCmp (consistent_cmp pl) a b ≠ Ordering.gt)
    ipk with hs2def
  have hsorted1 : s1.Pairwise (fun a b => keyFlagCmp a.2 b.2 ≠ Ordering.gt) :=
    List.sorted_insertionSort _ _
  have hskeys : s1.Pairwise (fun a b => ObservationKey.cmp a.2.1 b.2.1 ≠ Ordering.gt) :=
    hsorted1.imp (fun h => keyFlag_le_key _ _ h)
  have hnd2 : ((groups).map Prod.fst).Nodup := groupByPayload_keys_nodup s1 hskeys
  have huq : ∀ (k : ObservationKey) (e f : AbsEvent),
      qualifying builder unconsensused isd isa e k → e.creator = builder.creator →
      qualifying builder unconsensused isd isa f k → f.creator = builder.creator →
      e = f := by
    rintro k e f ⟨he1, he2, he3, -⟩ hec ⟨hf1, hf2, hf3, -⟩ hfc
    exact huniq e he1 f hf1 ⟨he2, hf2, hec, hfc, by rw [he3, hf3], by rw [he3]; rfl⟩
  have hrep : ∀ (i : Nat) (k : ObservationKey), (i, k) ∈ ipk →
      ∃ rep, qualifying builder unconsensused isd isa rep k ∧ isi k = true ∧
        i = (if decide (rep.creator = builder.creator) then rep.index_by_creator
          else USIZE_MAX) ∧
        (∀ e, qualifying builder unconsensused isd isa e k →
          e.creator = builder.creator → rep.creator = builder.creator) := by
    intro i k hp
    obtain ⟨es, rep, hg, hint, hh, hi⟩ :=
      (interesting_payload_keys_mem builder groups isi (i, k)).mp hp
    obtain ⟨hq, hcr⟩ := rep_facts builder unconsensused isd isa k es rep hg hh
    exact ⟨rep, hq, hint, hi, hcr⟩
  refine ⟨?_, ?_, ?_⟩
  · intro k
    constructor
    · intro hk
      obtain ⟨p, hp, hpk⟩ := List.mem_map.mp hk
      have hp2 : p ∈ ipk := (List.mem_insertionSort _).mp hp
      obtain ⟨i0, k0⟩ := p
      have hk0 : k0 = k := hpk
      subst hk0
      obtain ⟨rep, hq, hint, -, -⟩ := hrep i0 k0 hp2
      exact ⟨⟨rep, hq⟩, hint⟩
    · rintro ⟨⟨e, hq⟩, hint⟩
      have ht : (e, k, if decide (e.creator = builder.creator) then (0 : Nat) else 1) ∈
          events_to_process builder unconsensused isd isa :=
        (events_to_process_mem builder unconsensused isd isa _).mpr ⟨hq, rfl⟩
      have hts1 : (e, k, if decide (e.creator = builder.creator) then (0 : Nat) else 1) ∈
          s1 := (List.mem_insertionSort _).mpr ht
      obtain ⟨es, hg⟩ := groupByPayload_key_complete s1 e k _ hts1
      have hchar := groupByPayload_content s1 hskeys k es hg
      have hmemes : e ∈ es := by
        rw [hchar]
        refine List.mem_map.mpr
          ⟨(e, k, if decide (e.creator = builder.creator) then (0 : Nat) else 1), ?_, rfl⟩
        exact List.mem_filter.mpr ⟨hts1, by simp⟩
      obtain ⟨rep, es2, hes⟩ : ∃ rep es2, es = rep :: es2 := by
        cases es with
        | nil => simp at hmemes
        | cons a b => exact ⟨a, b, rfl⟩
      have hipk : ((if decide (rep.creator = builder.creator) then rep.index_by_creator
          else USIZE_MAX), k) ∈ ipk :=
        (interesting_payload_keys_mem builder groups isi _).mpr
          ⟨es, rep, hg, hint, by rw [hes]; rfl, rfl⟩
      exact List.mem_map.mpr ⟨_, (List.mem_insertionSort _).mpr hipk, rfl⟩
  · have hpm : (s2.map (fun p : Nat × ObservationKey => p.2)).Perm
        (ipk.map (fun p => p.2)) := (List.perm_insertionSort _ _).map _
    rw [hpm.nodup_iff]
    exact hnd2.sublist (interesting_payload_keys_keys_sublist builder groups isi)
  · rw [List.pairwise_map]
    have hs2p : s2.Pairwise
        (fun a b => idxKeyCmp (consistent_cmp pl) a b ≠ Ordering.gt) :=
      List.sorted_insertionSort _ _
    refine hs2p.imp_of_mem ?_
    intro p q hpmem hqmem hr2
    obtain ⟨i1, k1⟩ := p
    obtain ⟨i2, k2⟩ := q
    obtain ⟨rep1, hq1, hint1, hi1, hcr1⟩ :=
      hrep i1 k1 ((List.mem_insertionSort _).mp hpmem)
    obtain ⟨rep2, hq2, hint2, hi2, hcr2⟩ :=
      hrep i2 k2 ((List.mem_insertionSort _).mp hqmem)
    constructor
    · intro e f he hec hf hfc
      have h1 : rep1.creator = builder.creator := hcr1 e he hec
      have h2 : rep2.creator = builder.creator := hcr2 f hf hfc
      have he1 : e = rep1 := huq k1 e rep1 he hec hq1 h1
      have hf2 : f = rep2 := huq k2 f rep2 hf hfc hq2 h2
      have hi1e : i1 = e.index_by_creator := by
        rw [hi1, he1]
        simp [h1]
      have hi2f : i2 = f.index_by_creator := by
        rw [hi2, hf2]
        simp [h2]
      rw [idxKeyCmp_eq_then, then_ne_gt] at hr2
      rcases hr2 with h | h
      · have hcl := Nat.compare_eq_lt.mp h
        omega
      · have hce := Nat.compare_eq_eq.mp h.1
        omega
    · intro hncv1
      have hnc1 : ¬ rep1.creator = builder.creator := fun hc => hncv1 ⟨rep1, hq1, hc⟩
      have hi1M : i1 = USIZE_MAX := by
        rw [hi1]
        simp [hnc1]
      have hncv2 : ¬ creator_voted builder unconsensused isd isa k2 := by
        rintro ⟨f, hfq, hfc⟩
        have h2 : rep2.creator = builder.creator := hcr2 f hfq hfc
        have hi2f : i2 = rep2.index_by_creator := by
          rw [hi2]
          simp [h2]
        have hlt : i2 < USIZE_MAX := by
          rw [hi2f]
          exact hidx rep2 hq2.1
        rw [idxKeyCmp_eq_then, then_ne_gt] at hr2
        rcases hr2 with h | h
        · have hcl := Nat.compare_eq_lt.mp h
          omega
        · have hce := Nat.compare_eq_eq.mp h.1
          omega
      refine ⟨hncv2, ?_⟩
      have hnc2 : ¬ rep2.creator = builder.creator := fun hc => hncv2 ⟨rep2, hq2, hc⟩
      have hi2M : i2 = USIZE_MAX := by
        rw [hi2]
        simp [hnc2]
      unfold idxKeyCmp at hr2
      rw [if_pos (show i1 = i2 by rw [hi1M, hi2M])] at hr2
      exact hr2

/-- C9 witness at concrete inputs: four unconsensused events, all descendants, nothing
already interesting, every payload interesting; both hypotheses hold by evaluation and
the theorem applies. -/
theorem claim_C9_witness :
    (∀ e ∈ c9_unconsensused, e.index_by_creator < USIZE_MAX) ∧
    (∀ e ∈ c9_unconsensused, ∀ f ∈ c9_unconsensused,
      ((fun _ _ => true : AbsEvent → AbsEvent → Bool) c9_builder e = true ∧
        (fun _ _ => true : AbsEvent → AbsEvent → Bool) c9_builder f = true ∧
        e.creator = c9_builder.creator ∧ f.creator = c9_builder.creator ∧
        e.payload_key = f.payload_key ∧ e.payload_key.isSome = true) → e = f) ∧
    ((∀ k, k ∈ find_interesting_content_for_event c9_builder c9_unconsensused
        (consistent_cmp (fun p => some p)) (fun _ _ => true) (fun _ => false)
        (fun _ => true) ↔
      ((∃ e, qualifying c9_builder c9_unconsensused (fun _ _ => true)
        (fun _ => false) e k) ∧ (fun _ => true : ObservationKey → Bool) k = true)) ∧
    (find_interesting_content_for_event c9_builder c9_unconsensused
        (consistent_cmp (fun p => some p)) (fun _ _ => true) (fun _ => false)
        (fun _ => true)).Nodup ∧
    (find_interesting_content_for_event c9_builder c9_unconsensused
        (consistent_cmp (fun p => some p)) (fun _ _ => true) (fun _ => false)
        (fun _ => true)).Pairwise (fun k1 k2 =>
      (∀ e f, qualifying c9_builder c9_unconsensused (fun _ _ => true)
        (fun _ => false) e k1 → e.creator = c9_builder.creator →
        qualifying c9_builder c9_unconsensused (fun _ _ => true) (fun _ => false) f k2 →
        f.creator = c9_builder.creator → e.index_by_creator ≤ f.index_by_creator) ∧
      (¬ creator_voted c9_builder c9_unconsensused (fun _ _ => true)
          (fun _ => false) k1 →
        ¬ creator_voted c9_builder c9_unconsensused (fun _ _ => true)
            (fun _ => false) k2 ∧
          consistent_cmp (fun p => some p) k1 k2 ≠ Ordering.gt))) :=
  ⟨by decide, by decide,
   claim_C9 c9_builder c9_unconsensused (fun p => some p) (fun _ _ => true)
     (fun _ => false) (fun _ => true) (by decide) (by decide)⟩

end Parsec